import Mathlib

/-!
Verification development for the AutoComicRefiner batch image pipeline
(source file run.py).  The processing core is embedded shallowly:

* paths are lists of segments relative to the input root (the input root
  itself is the empty list, and the mirrored output root is the single
  segment list containing the fixed subfolder name new);
* the filesystem is an abstract snapshot: a directory-existence predicate,
  a partial modification-time map on files (absence of an mtime models a
  stat failure, matching os.path.exists plus os.path.getmtime), a partial
  decode map giving the pixel dimensions that PIL would report for a
  readable image, and per-path failure flags for makedirs, for the
  rmtree-plus-makedirs clearing step and for image saves;
* Python float arithmetic on the resize scale factors is embedded
  bit-exactly over IEEE-754 binary64 values, represented as mantissa and
  binary-exponent pairs (fdiv, fmulNat, fminD below) with division and
  products rounded to nearest, ties to even, exactly as CPython computes
  target_height / float(original_height) and int(original_width * ratio);
  overflow and subnormals lie far outside the dimensions an image can
  have and are not modelled.  The Python builtin int applied to the
  resulting nonnegative values is truncation toward zero (fToInt below,
  and pyInt on exact rationals in statements);
* the multiprocessing pool is modelled by a sequential map over the task
  list together with a boolean input saying whether the pool as a whole
  fails, because per-task results are aggregated by order-insensitive
  counting; logging performs no state change that the claims mention and
  is dropped.

Directory trees carry their listing order explicitly, because os.walk
enumerates directory entries in the order the operating system reports
them; the scanner in the source applies no sorting of its own.
-/

/-- A path relative to the input root, as a list of segments.  The last
segment of a file path is its filename. -/
abbrev FPath := List String

/-- Fixed name of the output subfolder created under the input root
(constant NEW_ROOT_OUTPUT_SUBFOLDER_NAME in the source). -/
def newRootOutputSubfolderName : String := "new"

/-- Supported image extensions, exactly the tuple supported_formats built
in process_images_with_config. -/
def supportedFormats : List String :=
  [".png", ".jpg", ".jpeg", ".bmp", ".gif", ".tiff", ".webp"]

/-- Python builtin int applied to a rational value: truncation toward
zero.  Every value truncated by the embedded code is nonnegative, so the
floor branch is the one exercised. -/
def pyInt (q : ℚ) : ℤ := if 0 ≤ q then ⌊q⌋ else ⌈q⌉

/-- The per-run configuration dictionary built by config_parser_to_dict.
The input root is implicit in the relative-path model and the three
filename templates are modelled as functions from the base name, the
resolved output extension and (for the split templates) the page number
to the output filename; the data model requires the single template to
tolerate a missing page number, so it takes only base and extension. -/
structure Config where
  isDryRun : Bool
  logFilename : String
  numProcesses : ℕ
  resizeMode : String
  targetHeight : ℕ
  targetWidth : ℕ
  maxHeight : ℕ
  maxWidth : ℕ
  outputFormatForOthers : String
  jpegQuality : ℕ
  enableDoublePageSplit : Bool
  splitLeftToRight : Bool
  overwriteExisting : Bool
  templateSingle : String → String → String
  templateSplitPage1 : String → String → ℕ → String
  templateSplitPage2 : String → String → ℕ → String

/-- Abstract filesystem snapshot consumed by the pipeline. -/
structure FSModel where
  isDir : FPath → Bool
  files : FPath → Option ℕ
  decode : FPath → Option (ℕ × ℕ)
  mkdirFails : FPath → Bool
  recreateFails : FPath → Bool
  saveFails : FPath → Bool

/-- Existence of a file, as os.path.exists reports it for file paths: a
stat succeeds exactly when an mtime is recorded. -/
def FSModel.fileExists (fs : FSModel) (p : FPath) : Bool := (fs.files p).isSome

/-- ASCII lowercasing of one character, the mapping Python str.lower and
Lean Char.toLower apply to the ASCII range of the filenames involved. -/
def asciiLower (c : Char) : Char :=
  if 65 ≤ c.toNat ∧ c.toNat ≤ 90 then Char.ofNat (c.toNat + 32) else c

/-- ASCII uppercasing of one character. -/
def asciiUpper (c : Char) : Char :=
  if 97 ≤ c.toNat ∧ c.toNat ≤ 122 then Char.ofNat (c.toNat - 32) else c

/-- str.lower() over a whole string. -/
def strLower (s : String) : String := ⟨s.data.map asciiLower⟩

/-- str.upper() over a whole string. -/
def strUpper (s : String) : String := ⟨s.data.map asciiUpper⟩

/-- get_dynamic_output_format_and_ext: resolve the container format and
output extension from the lowercased original extension. -/
def getDynamicOutputFormatAndExt (originalExtLower : String) (cfg : Config) :
    String × String :=
  if originalExtLower = ".jpg" ∨ originalExtLower = ".jpeg" then ("JPEG", ".jpg")
  else if originalExtLower = ".png" then ("PNG", ".png")
  else
    (strUpper cfg.outputFormatForOthers,
      if cfg.outputFormatForOthers = "jpeg" then ".jpg" else ".png")

/-- os.path.splitext on a bare filename: split at the last dot, except
that a dot-run at the very start of the name does not begin an extension. -/
def splitExt (s : String) : String × String :=
  let cs := s.data
  let rIdx := cs.reverse.indexOf '.'
  if rIdx = cs.length then (s, "")
  else
    let pos := cs.length - 1 - rIdx
    if (cs.take pos).all (fun c => c = '.') then (s, "")
    else (⟨cs.take pos⟩, ⟨cs.drop pos⟩)

/-- Directory part of a path (os.path.dirname). -/
def dirnameOf (p : FPath) : FPath := p.dropLast

/-- Filename part of a path (os.path.basename). -/
def basenameOf (p : FPath) : String := p.getLast?.getD ("")

/-- calculate_target_output_dir: the mirrored output directory of a
source file is the output subfolder followed by the relative directory of
the source parent; for a root-level source the relative directory is
empty and the result is the output root itself. -/
def calculateTargetOutputDir (imgPath : FPath) : FPath :=
  newRootOutputSubfolderName :: dirnameOf imgPath

/-- Fuel for the binary logarithm below; any fuel at least the bit length
of the argument computes the exact floor logarithm, and 1100 covers every
value the embedded pipeline can build from the normal range of IEEE-754
binary64 numbers. -/
def log2Fuel : ℕ := 1100

/-- Floor of the base-two logarithm by repeated halving, with structural
fuel. -/
def log2F : ℕ → ℕ → ℕ
  | 0, _ => 0
  | fuel + 1, n => if 2 ≤ n then log2F fuel (n / 2) + 1 else 0

/-- Floor of the base-two logarithm of a natural number. -/
def nlog2 (n : ℕ) : ℕ := log2F log2Fuel n

/-- Floor of the base-two logarithm of the positive rational a / b. -/
def floorLog2Q (a b : ℕ) : ℤ :=
  if b ≤ a then (nlog2 (a / b) : ℤ)
  else
    let k := nlog2 (b / a)
    if a * 2 ^ k = b then -(k : ℤ) else -(k : ℤ) - 1

/-- Round n / d to the nearest integer, ties to even: the IEEE-754
default rounding applied to a mantissa quotient. -/
def rnd2 (n d : ℕ) : ℕ :=
  let q := n / d
  let r := n % d
  if d < 2 * r ∨ (2 * r = d ∧ q % 2 = 1) then q + 1 else q

/-- The IEEE-754 binary64 value nearest to a / b as a mantissa and binary
exponent with value m * 2 ^ e: the model of the CPython float division of
two nonnegative integers, e.g. target_height / float(original_height). -/
def fdiv (a b : ℕ) : ℕ × ℤ :=
  if a = 0 then (0, 0)
  else
    let e : ℤ := floorLog2Q a b - 52
    if 0 ≤ e then (rnd2 a (b * 2 ^ e.toNat), e)
    else (rnd2 (a * 2 ^ (-e).toNat) b, e)

/-- The IEEE-754 binary64 product of an exactly representable natural
with a binary64 value: the exact product rounded to 53 significant bits,
the model of CPython original_width * ratio. -/
def fmulNat (k : ℕ) (x : ℕ × ℤ) : ℕ × ℤ :=
  let M := k * x.1
  let t := nlog2 M
  if t ≤ 52 then (M, x.2)
  else (rnd2 M (2 ^ (t - 52)), x.2 + ((t - 52 : ℕ) : ℤ))

/-- Comparison m1 * 2 ^ e1 <= m2 * 2 ^ e2 of two mantissa-exponent
values, by shifting to a common exponent. -/
def fleB (x y : ℕ × ℤ) : Bool :=
  if x.2 ≤ y.2 then decide (x.1 ≤ y.1 * 2 ^ (y.2 - x.2).toNat)
  else decide (x.1 * 2 ^ (x.2 - y.2).toNat ≤ y.1)

/-- min of two binary64 values as Python computes it: the first argument
unless the second is strictly smaller. -/
def fminD (x y : ℕ × ℤ) : ℕ × ℤ := if fleB x y then x else y

/-- Python int() applied to a nonnegative binary64 value: truncation
toward zero, which on nonnegative values is the floor. -/
def fToInt (x : ℕ × ℤ) : ℤ :=
  if 0 ≤ x.2 then (x.1 : ℤ) * 2 ^ x.2.toNat
  else ((x.1 / 2 ^ (-x.2).toNat : ℕ) : ℤ)

/-- Rational value of a mantissa-exponent pair, used to state how close
the rounded float results are to the exact quotients. -/
def dyVal (x : ℕ × ℤ) : ℚ := (x.1 : ℚ) * (2 : ℚ) ^ x.2

/-- Resize arithmetic simulated by check_if_already_processed (the block
computing sim_width and sim_height), with the float divisions and
products computed bit-exactly through the binary64 model above.  The
result is the pair width, height; none models the ZeroDivisionError that
the float division raises on a zero original dimension, which the
surrounding handler turns into a cache miss. -/
def simResizeDims (cfg : Config) (originalWidth originalHeight : ℕ) :
    Option (ℤ × ℤ) :=
  if cfg.resizeMode ≠ "none" then
    if cfg.resizeMode = "fixed_height" ∧ 0 < cfg.targetHeight ∧
        originalHeight ≠ cfg.targetHeight then
      if originalHeight = 0 then none
      else
        let r := fdiv cfg.targetHeight originalHeight
        some (fToInt (fmulNat originalWidth r), (cfg.targetHeight : ℤ))
    else if cfg.resizeMode = "fixed_width" ∧ 0 < cfg.targetWidth ∧
        originalWidth ≠ cfg.targetWidth then
      if originalWidth = 0 then none
      else
        let r := fdiv cfg.targetWidth originalWidth
        some ((cfg.targetWidth : ℤ), fToInt (fmulNat originalHeight r))
    else if cfg.resizeMode = "fit_bounds" then
      if 0 < cfg.maxWidth ∧ 0 < cfg.maxHeight ∧
          (cfg.maxWidth < originalWidth ∨ cfg.maxHeight < originalHeight) then
        if originalWidth = 0 ∨ originalHeight = 0 then none
        else
          let r := fminD (fdiv cfg.maxWidth originalWidth)
            (fdiv cfg.maxHeight originalHeight)
          some (fToInt (fmulNat originalWidth r), fToInt (fmulNat originalHeight r))
      else some ((originalWidth : ℤ), (originalHeight : ℤ))
    else some ((originalWidth : ℤ), (originalHeight : ℤ))
  else some ((originalWidth : ℤ), (originalHeight : ℤ))

/-- Resize arithmetic performed by worker_process_image (the block
computing new_width and new_height).  The source writes this computation
out a second time; it is embedded separately so that its agreement with
the simulation in the cache check is a theorem about two definitions. -/
def plannedDims (cfg : Config) (originalWidth originalHeight : ℕ) :
    Option (ℤ × ℤ) :=
  if cfg.resizeMode ≠ "none" then
    if cfg.resizeMode = "fixed_height" ∧ 0 < cfg.targetHeight ∧
        originalHeight ≠ cfg.targetHeight then
      if originalHeight = 0 then none
      else
        let r := fdiv cfg.targetHeight originalHeight
        some (fToInt (fmulNat originalWidth r), (cfg.targetHeight : ℤ))
    else if cfg.resizeMode = "fixed_width" ∧ 0 < cfg.targetWidth ∧
        originalWidth ≠ cfg.targetWidth then
      if originalWidth = 0 then none
      else
        let r := fdiv cfg.targetWidth originalWidth
        some ((cfg.targetWidth : ℤ), fToInt (fmulNat originalHeight r))
    else if cfg.resizeMode = "fit_bounds" then
      if 0 < cfg.maxWidth ∧ 0 < cfg.maxHeight ∧
          (cfg.maxWidth < originalWidth ∨ cfg.maxHeight < originalHeight) then
        if originalWidth = 0 ∨ originalHeight = 0 then none
        else
          let r := fminD (fdiv cfg.maxWidth originalWidth)
            (fdiv cfg.maxHeight originalHeight)
          some (fToInt (fmulNat originalWidth r), fToInt (fmulNat originalHeight r))
      else some ((originalWidth : ℤ), (originalHeight : ℤ))
    else some ((originalWidth : ℤ), (originalHeight : ℤ))
  else some ((originalWidth : ℤ), (originalHeight : ℤ))

/-- Split-candidate test used by check_if_already_processed on the
simulated dimensions: positive height and width strictly exceeding it. -/
def isSplitCandidate (w h : ℤ) : Bool := decide (0 < h) && decide (h < w)

/-- A directory tree with its listing order: subdirectories as named
subtrees and plain filenames, each in the order the operating system
enumerates them for os.walk. -/
inductive DirTree where
  | mk (subdirs : List (String × DirTree)) (files : List String)

/-- Subdirectory listing of a tree node. -/
def DirTree.subdirs : DirTree → List (String × DirTree)
  | .mk s _ => s

/-- File listing of a tree node. -/
def DirTree.files : DirTree → List String
  | .mk _ f => f

/-- filename.lower().endswith(supported_formats): the lowercased filename
ends with at least one of the supported extensions. -/
def matchesSupportedExt (sup : List String) (filename : String) : Bool :=
  sup.any (fun e => e.data.isSuffixOf (strLower filename).data)

/-- The os.walk traversal of get_all_image_files, collecting candidate
files top-down.  The current directory is carried as a path relative to
the input root; at the directory equal to the output subfolder the whole
subtree is pruned, and at the input root the log filename is removed from
the listing before the extension filter.  The fuel argument bounds the
recursion depth; every real tree is finite, so any fuel at least the tree
depth yields the full traversal, and the properties proved below hold for
every fuel. -/
def walkCollect (logFilenameVal : String) (sup : List String) :
    ℕ → DirTree → FPath → List FPath
  | 0, _, _ => []
  | fuel + 1, t, cur =>
    if cur = [newRootOutputSubfolderName] then []
    else
      let filesToScan := if cur = [] then t.files.erase logFilenameVal else t.files
      (filesToScan.filter (fun f => matchesSupportedExt sup f)).map (fun f => cur ++ [f])
        ++ (t.subdirs.map (fun d => walkCollect logFilenameVal sup fuel d.2 (cur ++ [d.1]))).flatten

/-- get_all_image_files: collect every image file to process under the
input root. -/
def getAllImageFiles (fuel : ℕ) (t : DirTree) (sup : List String)
    (logFilenameVal : String) : List FPath :=
  walkCollect logFilenameVal sup fuel t []

/-- The raw enumeration of every file in the tree in os.walk order,
without pruning, log exclusion or extension filtering; used to state that
the scanner emits an order-preserving selection of the underlying
enumeration. -/
def enumAllFiles : ℕ → DirTree → FPath → List FPath
  | 0, _, _ => []
  | fuel + 1, t, cur =>
    t.files.map (fun f => cur ++ [f])
      ++ (t.subdirs.map (fun d => enumAllFiles fuel d.2 (cur ++ [d.1]))).flatten

/-- The expected-output list built by check_if_already_processed: the two
split filenames when splitting is enabled and the simulated dimensions
are a split candidate, otherwise the single filename. -/
def expectedOutputFiles (cfg : Config) (mirroredTargetDir : FPath)
    (base finalOutputExt : String) (simW simH : ℤ) : List FPath :=
  if cfg.enableDoublePageSplit && isSplitCandidate simW simH then
    [mirroredTargetDir ++ [cfg.templateSplitPage1 base finalOutputExt 1],
      mirroredTargetDir ++ [cfg.templateSplitPage2 base finalOutputExt 2]]
  else
    [mirroredTargetDir ++ [cfg.templateSingle base finalOutputExt]]

/-- check_if_already_processed: decide whether the expected outputs of a
source file already exist and are at least as new as the source.  Every
failure while opening or reading the source image is a cache miss, as is
a missing mirrored directory; overwrite mode and dry-run mode disable the
cache unconditionally. -/
def checkIfAlreadyProcessed (fs : FSModel) (cfg : Config) (imgPath : FPath) : Bool :=
  if cfg.overwriteExisting || cfg.isDryRun then false
  else if !(fs.isDir (calculateTargetOutputDir imgPath)) then false
  else
    let mirroredTargetDir := calculateTargetOutputDir imgPath
    let be := splitExt (basenameOf imgPath)
    let finalOutputExt := (getDynamicOutputFormatAndExt (strLower be.2) cfg).2
    match fs.decode imgPath with
    | none => false
    | some wh =>
      match simResizeDims cfg wh.1 wh.2 with
      | none => false
      | some sim =>
        let expectedOutputs :=
          expectedOutputFiles cfg mirroredTargetDir be.1 finalOutputExt sim.1 sim.2
        match fs.files imgPath with
        | none => false
        | some sourceMtime =>
          expectedOutputs.all fun outFile =>
            match fs.files outFile with
            | none => false
            | some outMtime => decide (sourceMtime ≤ outMtime)

/-- The result tuple returned by worker_process_image: status string,
message, filename and the split flag. -/
structure WorkerResult where
  status : String
  message : String
  filename : String
  isSplit : Bool
deriving DecidableEq

/-- Split decision of worker_process_image on the dimensions of the
resized image: splitting enabled, positive height, width exceeding it. -/
def workerSplitCond (cfg : Config) (w h : ℤ) : Bool :=
  cfg.enableDoublePageSplit && (decide (0 < h) && decide (h < w))

/-- worker_process_image: process one source file, returning the result
tuple and the list of output paths actually written.  Failures to decode
the source, the ValueError that PIL raises when asked to resize to a
degenerate size, and failing saves are all caught and turned into error
results; in dry-run mode every save is skipped but the decisions are
unchanged. -/
def workerProcessImage (fs : FSModel) (cfg : Config) (imgPath : FPath) :
    WorkerResult × List FPath :=
  let filename := basenameOf imgPath
  let be := splitExt filename
  let finalOutputExt := (getDynamicOutputFormatAndExt (strLower be.2) cfg).2
  let mirroredTargetDir := calculateTargetOutputDir imgPath
  match fs.decode imgPath with
  | none =>
    ({ status := "error", message := "cannot open or identify source",
       filename := filename, isSplit := false }, [])
  | some wh =>
    match plannedDims cfg wh.1 wh.2 with
    | none =>
      ({ status := "error", message := "resize arithmetic failed",
         filename := filename, isSplit := false }, [])
    | some nd =>
      if (nd.1 ≠ (wh.1 : ℤ) ∨ nd.2 ≠ (wh.2 : ℤ)) ∧ (nd.1 < 1 ∨ nd.2 < 1) then
        ({ status := "error", message := "resize to degenerate size",
           filename := filename, isSplit := false }, [])
      else if workerSplitCond cfg nd.1 nd.2 then
        let p1 := mirroredTargetDir ++ [cfg.templateSplitPage1 be.1 finalOutputExt 1]
        let p2 := mirroredTargetDir ++ [cfg.templateSplitPage2 be.1 finalOutputExt 2]
        if cfg.isDryRun then
          ({ status := "success", message := "processed", filename := filename,
             isSplit := true }, [])
        else if fs.saveFails p1 then
          ({ status := "error", message := "save failed", filename := filename,
             isSplit := false }, [])
        else if fs.saveFails p2 then
          ({ status := "error", message := "save failed", filename := filename,
             isSplit := false }, [p1])
        else
          ({ status := "success", message := "processed", filename := filename,
             isSplit := true }, [p1, p2])
      else
        let sp := mirroredTargetDir ++ [cfg.templateSingle be.1 finalOutputExt]
        if cfg.isDryRun then
          ({ status := "success", message := "processed", filename := filename,
             isSplit := false }, [])
        else if fs.saveFails sp then
          ({ status := "error", message := "save failed", filename := filename,
             isSplit := false }, [])
        else
          ({ status := "success", message := "processed", filename := filename,
             isSplit := false }, [sp])

/-- The summary record returned by process_images_with_config. -/
structure Summary where
  totalProcessed : ℕ
  totalSplit : ℕ
  skippedDueToCache : ℕ
  totalErrors : ℕ
  totalDiscovered : ℕ
  totalToProcess : ℕ
  logFilePath : String
  status : String
deriving DecidableEq

/-- The outcome of a whole run: the summary together with the dispatched
task list and the list of files written, kept for stating properties. -/
structure RunTrace where
  summary : Summary
  tasks : List FPath
  writes : List FPath
deriving DecidableEq

/-- Directory existence as seen during a run: a directory of the initial
snapshot, or one created earlier in the run. -/
def dirExistsIn (fs : FSModel) (created : List FPath) (p : FPath) : Bool :=
  fs.isDir p || created.contains p

/-- The filesystem as later steps of the run observe it, with the
directories created so far visible to os.path.isdir. -/
def fsWithCreated (fs : FSModel) (created : List FPath) : FSModel :=
  { fs with isDir := fun p => fs.isDir p || created.contains p }

/-- One iteration of the output-directory preparation loop of
process_images_with_config, acting on the pair of the current discovered
list and the list of directories created so far.  A failing clear or
create removes every discovered file under the parent directory from the
discovered list itself. -/
def prepareStep (fs : FSModel) (cfg : Config) (st : List FPath × List FPath)
    (parentDir : FPath) : List FPath × List FPath :=
  let mirrored := newRootOutputSubfolderName :: parentDir
  if cfg.isDryRun then st
  else if dirExistsIn fs st.2 mirrored then
    if cfg.overwriteExisting then
      if fs.recreateFails mirrored then
        (st.1.filter (fun p => dirnameOf p ≠ parentDir), st.2)
      else st
    else st
  else if fs.mkdirFails mirrored then
    (st.1.filter (fun p => dirnameOf p ≠ parentDir), st.2)
  else (st.1, mirrored :: st.2)

/-- Lexicographic strict comparison of character lists by code point,
the order Python uses on strings. -/
def charListLt : List Char → List Char → Bool
  | [], [] => false
  | [], _ :: _ => true
  | _ :: _, [] => false
  | a :: as, b :: bs =>
    if a.toNat < b.toNat then true
    else if b.toNat < a.toNat then false
    else charListLt as bs

/-- Nonstrict string comparison derived from charListLt. -/
def strLeB (a b : String) : Bool := !(charListLt b.data a.data)

/-- Lexicographic comparison of paths used to model the sorted() call on
the set of parent directories. -/
def pathLeB : FPath → FPath → Bool
  | [], _ => true
  | _ :: _, [] => false
  | a :: as, b :: bs => if a = b then pathLeB as bs else strLeB a b

/-- Insert a path into a list sorted by pathLeB. -/
def insertPathLe (x : FPath) : List FPath → List FPath
  | [] => [x]
  | y :: ys => if pathLeB x y then x :: y :: ys else y :: insertPathLe x ys

/-- Insertion sort of paths by pathLeB; the prepare loop of the source
processes the parent directories in sorted order, and none of the
properties below depend on which order that is. -/
def sortPaths : List FPath → List FPath
  | [] => []
  | x :: xs => insertPathLe x (sortPaths xs)

/-- Deduplication of a path list, modelling the set() constructor; the
subsequent sort makes the retention order irrelevant. -/
def dedupPaths : List FPath → List FPath
  | [] => []
  | x :: xs => if xs.contains x then dedupPaths xs else x :: dedupPaths xs

/-- sorted(list(set(dirname(p) for p in discovered))): the distinct
parent directories of the discovered files. -/
def uniqueSortedParents (discovered : List FPath) : List FPath :=
  sortPaths (dedupPaths (discovered.map dirnameOf))

/-- One iteration of the filtering loop: silently drop a file whose
mirrored directory is absent outside dry-run, count a cache hit as
skipped, otherwise append the file to the task list. -/
def filterStep (fs : FSModel) (cfg : Config) (created : List FPath)
    (st : ℕ × List FPath) (imgPath : FPath) : ℕ × List FPath :=
  let mirrored := calculateTargetOutputDir imgPath
  if !cfg.isDryRun && !(dirExistsIn fs created mirrored) then st
  else if !cfg.overwriteExisting &&
      checkIfAlreadyProcessed (fsWithCreated fs created) cfg imgPath then
    (st.1 + 1, st.2)
  else (st.1, st.2 ++ [imgPath])

/-- Result aggregation of process_images_with_config: count successes,
splits among them, and errors, over the triple processed, split, errors. -/
def aggregateStep (acc : ℕ × ℕ × ℕ) (r : WorkerResult) : ℕ × ℕ × ℕ :=
  if r.status = "success" then
    (acc.1 + 1, (if r.isSplit then acc.2.1 + 1 else acc.2.1), acc.2.2)
  else if r.status = "error" then (acc.1, acc.2.1, acc.2.2 + 1)
  else acc

/-- The main phase of process_images_with_config with the directories
already created during root handling passed in: prepare the mirrored
directories, filter through the freshness cache, dispatch and aggregate. -/
def runMainPhaseAux (cfg : Config) (fs : FSModel) (discovered : List FPath)
    (poolFails : Bool) (created0 : List FPath) : RunTrace :=
  let prep := (uniqueSortedParents discovered).foldl (prepareStep fs cfg)
    (discovered, created0)
  let flt := prep.1.foldl (filterStep fs cfg prep.2) (0, [])
  if flt.2 = [] then
    let s : Summary :=
      { totalProcessed := 0, totalSplit := 0, skippedDueToCache := flt.1,
        totalErrors := 0, totalDiscovered := prep.1.length,
        totalToProcess := 0, logFilePath := cfg.logFilename,
        status := "nothing_to_do" }
    { summary := s, tasks := [], writes := [] }
  else
    let results := flt.2.map (workerProcessImage fs cfg)
    let agg := results.foldl (fun acc r => aggregateStep acc r.1) (0, 0, 0)
    let s : Summary :=
      { totalProcessed := if poolFails then 0 else agg.1,
        totalSplit := if poolFails then 0 else agg.2.1,
        skippedDueToCache := flt.1,
        totalErrors := if poolFails then flt.2.length else agg.2.2,
        totalDiscovered := prep.1.length, totalToProcess := flt.2.length,
        logFilePath := cfg.logFilename, status := "completed" }
    { summary := s, tasks := flt.2,
      writes := (results.map (fun r => r.2)).flatten }

/-- The main phase of process_images_with_config, entered once the scan
found files and the output root is available; outside dry-run a missing
output root was just created. -/
def runMainPhase (cfg : Config) (fs : FSModel) (discovered : List FPath)
    (poolFails : Bool) : RunTrace :=
  runMainPhaseAux cfg fs discovered poolFails
    (if !cfg.isDryRun && !(fs.isDir [newRootOutputSubfolderName]) then
      [[newRootOutputSubfolderName]]
    else [])

/-- process_images_with_config: scan, prepare mirrored directories,
filter through the freshness cache, dispatch the workers and aggregate.
The boolean poolFails models a catastrophic failure of the worker pool,
after which every dispatched task is counted as an error; the writes
field collects the outputs the workers report having written. -/
def processImagesWithConfig (cfg : Config) (fuel : ℕ) (t : DirTree)
    (fs : FSModel) (poolFails : Bool) : RunTrace :=
  let discovered := getAllImageFiles fuel t supportedFormats cfg.logFilename
  if discovered = [] then
    let s : Summary :=
      { totalProcessed := 0, totalSplit := 0, skippedDueToCache := 0,
        totalErrors := 0, totalDiscovered := 0, totalToProcess := 0,
        logFilePath := cfg.logFilename, status := "no_images" }
    { summary := s, tasks := [], writes := [] }
  else if !cfg.isDryRun && !(fs.isDir [newRootOutputSubfolderName]) &&
      fs.mkdirFails [newRootOutputSubfolderName] then
    let s : Summary :=
      { totalProcessed := 0, totalSplit := 0, skippedDueToCache := 0,
        totalErrors := 1, totalDiscovered := discovered.length,
        totalToProcess := 0, logFilePath := cfg.logFilename, status := "failed" }
    { summary := s, tasks := [], writes := [] }
  else runMainPhase cfg fs discovered poolFails

/-- A decoded raster image: dimensions and a pixel map. -/
structure PILImage where
  width : ℕ
  height : ℕ
  pix : ℕ → ℕ → ℕ

/-- Image.crop with box (l, t, r, b): the crop is r - l wide and b - t
tall and reads the source shifted by the top-left corner. -/
def PILImage.crop (img : PILImage) (l t r b : ℕ) : PILImage :=
  { width := r - l, height := b - t, pix := fun x y => img.pix (l + x) (t + y) }

/-- The two crops produced by the split branch of worker_process_image:
crop at midpoint width // 2, left part the columns before the midpoint,
right part the columns from the midpoint on. -/
def splitPages (resized : PILImage) : PILImage × PILImage :=
  let midpoint := resized.width / 2
  (resized.crop 0 0 midpoint resized.height,
    resized.crop midpoint 0 resized.width resized.height)

/-- Example configuration exercising fixed_height mode. -/
def cfgFixedHeight : Config :=
  { isDryRun := false, logFilename := "manga_processing.log", numProcesses := 1,
    resizeMode := "fixed_height", targetHeight := 1000, targetWidth := 0,
    maxHeight := 0, maxWidth := 0, outputFormatForOthers := "jpeg",
    jpegQuality := 90, enableDoublePageSplit := true, splitLeftToRight := true,
    overwriteExisting := false,
    templateSingle := fun b e => b ++ e,
    templateSplitPage1 := fun b e _ => b ++ "_p1" ++ e,
    templateSplitPage2 := fun b e _ => b ++ "_p2" ++ e }

/-- A fixed-height configuration with target height 1, exercising the
knife-edge 49 by 49 source where the float scale 1/49 rounds below the
exact quotient. -/
def cfg49 : Config := { cfgFixedHeight with targetHeight := 1 }

/-- A concrete odd-width landscape image. -/
def imgOddWidth : PILImage := { width := 5, height := 3, pix := fun _ _ => 0 }

/-- Configuration for the sliver counterexample: fixed_width mode with
target width 10 and splitting enabled. -/
def cfgSliver : Config :=
  { cfgFixedHeight with
      resizeMode := "fixed_width", targetWidth := 10, targetHeight := 0 }

/-- Filesystem for the sliver counterexample: a 100 by 1 source image
whose single-page output exists and is fresh, while neither split-page
output exists. -/
def fsSliver : FSModel :=
  { isDir := fun p => p = ["new"],
    files := fun p =>
      if p = ["a.png"] then some 5
      else if p = ["new", "a.png"] then some 9 else none,
    decode := fun p => if p = ["a.png"] then some (100, 1) else none,
    mkdirFails := fun _ => false, recreateFails := fun _ => false,
    saveFails := fun _ => false }

/-- Configuration with overwrite enabled, for the C3 witness. -/
def cfgOverwriteOn : Config := { cfgFixedHeight with overwriteExisting := true }

/-- A path strictly inside the mirrored output root. -/
def liesUnderOutputRoot (p : FPath) : Prop :=
  ∃ rest, rest ≠ ([] : FPath) ∧ p = newRootOutputSubfolderName :: rest

/-- Root listing enumerated b before a. -/
def treeBA : DirTree := .mk [] ["b.png", "a.png"]

/-- The same root content enumerated a before b. -/
def treeAB : DirTree := .mk [] ["a.png", "b.png"]

/-- A tree whose output subtree already holds an image and whose root
holds the log file. -/
def treeWithOutput : DirTree :=
  .mk [("new", .mk [] ["x.png"]), ("sub", .mk [] ["b.png"])] ["a.jpg", "log.txt"]

/-- The per-run outcome once every discovered file becomes a task: every
file is dispatched, nothing is skipped. -/
def dispatchAll (cfg : Config) (fs : FSModel) (disc : List FPath) (pf : Bool) :
    RunTrace :=
  if disc = [] then
    let s : Summary :=
      { totalProcessed := 0, totalSplit := 0, skippedDueToCache := 0,
        totalErrors := 0, totalDiscovered := disc.length, totalToProcess := 0,
        logFilePath := cfg.logFilename, status := "nothing_to_do" }
    { summary := s, tasks := [], writes := [] }
  else
    let results := disc.map (workerProcessImage fs cfg)
    let agg := results.foldl (fun acc r => aggregateStep acc r.1) (0, 0, 0)
    let s : Summary :=
      { totalProcessed := if pf then 0 else agg.1,
        totalSplit := if pf then 0 else agg.2.1,
        skippedDueToCache := 0,
        totalErrors := if pf then disc.length else agg.2.2,
        totalDiscovered := disc.length, totalToProcess := disc.length,
        logFilePath := cfg.logFilename, status := "completed" }
    { summary := s, tasks := disc, writes := (results.map (fun r => r.2)).flatten }

/-- Configuration with no resizing and splitting disabled, used by the
run-level concrete scenarios. -/
def cfgPlain : Config :=
  { cfgFixedHeight with resizeMode := "none", enableDoublePageSplit := false }

/-- A tree holding one root image. -/
def treeOne : DirTree := .mk [] ["a.png"]

/-- A filesystem where the single output of the one source image already
exists, fresh. -/
def fsPrior : FSModel :=
  { isDir := fun p => p = ["new"],
    files := fun p =>
      if p = ["a.png"] then some 5
      else if p = ["new", "a.png"] then some 10 else none,
    decode := fun p => if p = ["a.png"] then some (3, 4) else none,
    mkdirFails := fun _ => false, recreateFails := fun _ => false,
    saveFails := fun _ => false }

/-- A filesystem with the same source image and no pre-existing outputs. -/
def fsClean : FSModel :=
  { isDir := fun p => p = ["new"],
    files := fun p => if p = ["a.png"] then some 5 else none,
    decode := fun p => if p = ["a.png"] then some (3, 4) else none,
    mkdirFails := fun _ => false, recreateFails := fun _ => false,
    saveFails := fun _ => false }

/-- Overwrite-enabled configuration for the C10 witness. -/
def cfgOverwritePlain : Config := { cfgPlain with overwriteExisting := true }

/-- Filesystem for the C10 witness: the mirrored root directory exists
and its clearing fails. -/
def fsFailClear : FSModel :=
  { isDir := fun p => p = ["new"],
    files := fun _ => none,
    decode := fun p => if p = ["a.png"] then some (3, 4) else none,
    mkdirFails := fun _ => false,
    recreateFails := fun p => p = ["new"],
    saveFails := fun _ => false }

/-- Truncating the exact product of a natural width with a nonnegative
ratio of naturals agrees with natural floor division. -/
theorem pyInt_nat_scale (a b c : ℕ) (hc : c ≠ 0) :
    pyInt ((a : ℚ) * ((b : ℚ) / (c : ℚ))) = ((a * b / c : ℕ) : ℤ) := by
  have hq : (0 : ℚ) ≤ (a : ℚ) * ((b : ℚ) / (c : ℚ)) := by positivity
  rw [pyInt, if_pos hq]
  have he : (a : ℚ) * ((b : ℚ) / (c : ℚ)) = ((a * b : ℕ) : ℚ) / ((c : ℕ) : ℚ) := by
    push_cast; ring
  rw [he, ← Int.natCast_floor_eq_floor (by positivity), Nat.floor_div_nat,
    Nat.floor_natCast]

/-- log2F of zero is zero at every fuel. -/
theorem log2F_zero : ∀ fuel, log2F fuel 0 = 0 := by
  intro f
  cases f <;> simp [log2F]

/-- The fuelled floor logarithm never overshoots: 2 to it stays below its
argument, at every fuel. -/
theorem log2F_lower : ∀ (fuel n : ℕ), 0 < n → 2 ^ log2F fuel n ≤ n := by
  intro fuel
  induction fuel with
  | zero =>
    intro n hn
    simpa [log2F] using hn
  | succ fuel ih =>
    intro n hn
    simp only [log2F]
    split
    · next h2 =>
      have ihh := ih (n / 2) (by omega)
      have hpow : 2 ^ (log2F fuel (n / 2) + 1) = 2 * 2 ^ (log2F fuel (n / 2)) := by
        ring
      omega
    · simpa using hn

/-- With enough fuel the floor logarithm is exact from above as well. -/
theorem log2F_upper : ∀ (fuel n : ℕ), n < 2 ^ fuel → n < 2 ^ (log2F fuel n + 1) := by
  intro fuel
  induction fuel with
  | zero =>
    intro n hn
    simp [log2F]
    omega
  | succ fuel ih =>
    intro n hn
    simp only [log2F]
    split
    · next h2 =>
      have hhalf : n / 2 < 2 ^ fuel := by
        have hpow : 2 ^ (fuel + 1) = 2 * 2 ^ fuel := by ring
        omega
      have ihh := ih (n / 2) hhalf
      have hpow : 2 ^ (log2F fuel (n / 2) + 1 + 1) =
          2 * 2 ^ (log2F fuel (n / 2) + 1) := by ring
      omega
    · next h2 =>
      simp at h2
      have hpow : (2 : ℕ) ^ (0 + 1) = 2 := by norm_num
      omega

/-- Division with remainder sandwiches a natural between consecutive
multiples of the divisor. -/
theorem nat_div_bounds (a b : ℕ) (hb : 0 < b) :
    b * (a / b) ≤ a ∧ a < b * (a / b + 1) := by
  constructor
  · calc b * (a / b) = a / b * b := by ring
    _ ≤ a := Nat.div_mul_le_self a b
  · have h1 := Nat.div_add_mod a b
    have h2 := Nat.mod_lt a hb
    calc a = b * (a / b) + a % b := h1.symm
    _ < b * (a / b) + b := by omega
    _ = b * (a / b + 1) := by ring

/-- floorLog2Q brackets a / b between consecutive powers of two, stated
multiplicatively: for every decomposition of the exponent as p - q the
quotient lies in the window. -/
theorem floorLog2Q_window (a b : ℕ) (ha : 0 < a) (hb : 0 < b)
    (haB : a < 2 ^ log2Fuel) (hbB : b < 2 ^ log2Fuel) (p q : ℕ)
    (hpq : floorLog2Q a b = (p : ℤ) - (q : ℤ)) :
    b * 2 ^ p ≤ a * 2 ^ q ∧ a * 2 ^ q < 2 * (b * 2 ^ p) := by
  unfold floorLog2Q at hpq
  by_cases hba : b ≤ a
  · rw [if_pos hba] at hpq
    set L := nlog2 (a / b) with hL
    have hpL : p = L + q := by omega
    have hdp : 0 < a / b := Nat.div_pos hba hb
    have hlow : 2 ^ L ≤ a / b := log2F_lower log2Fuel (a / b) hdp
    have hup : a / b < 2 ^ (L + 1) :=
      log2F_upper log2Fuel (a / b) (lt_of_le_of_lt (Nat.div_le_self a b) haB)
    have hdb := nat_div_bounds a b hb
    have h1 : b * 2 ^ L ≤ a :=
      le_trans (Nat.mul_le_mul_left b hlow) hdb.1
    have h2 : a < b * 2 ^ (L + 1) :=
      lt_of_lt_of_le hdb.2 (Nat.mul_le_mul_left b (by omega))
    constructor
    · calc b * 2 ^ p = b * 2 ^ L * 2 ^ q := by rw [hpL, pow_add]; ring
      _ ≤ a * 2 ^ q := Nat.mul_le_mul_right _ h1
    · calc a * 2 ^ q < b * 2 ^ (L + 1) * 2 ^ q :=
          mul_lt_mul_of_pos_right h2 (by positivity)
      _ = 2 * (b * 2 ^ p) := by rw [hpL, pow_add, pow_add]; ring
  · have hab : a < b := by omega
    rw [if_neg hba] at hpq
    set k := nlog2 (b / a) with hk
    have hdp : 0 < b / a := Nat.div_pos (by omega) ha
    have hlow : 2 ^ k ≤ b / a := log2F_lower log2Fuel (b / a) hdp
    have hup : b / a < 2 ^ (k + 1) :=
      log2F_upper log2Fuel (b / a) (lt_of_le_of_lt (Nat.div_le_self b a) hbB)
    have hdb := nat_div_bounds b a ha
    have h1 : a * 2 ^ k ≤ b :=
      le_trans (Nat.mul_le_mul_left a hlow) hdb.1
    have h2 : b < a * 2 ^ (k + 1) :=
      lt_of_lt_of_le hdb.2 (Nat.mul_le_mul_left a (by omega))
    by_cases hex : a * 2 ^ k = b
    · rw [if_pos hex] at hpq
      have hqk : q = p + k := by omega
      have heq : b * 2 ^ p = a * 2 ^ q := by
        rw [hqk, pow_add, ← hex]; ring
      refine ⟨le_of_eq heq, ?_⟩
      rw [← heq]
      have hpos : 0 < b * 2 ^ p := by positivity
      omega
    · rw [if_neg hex] at hpq
      have hqk : q = p + k + 1 := by omega
      have h1s : a * 2 ^ k < b := lt_of_le_of_ne h1 hex
      constructor
      · calc b * 2 ^ p ≤ a * 2 ^ (k + 1) * 2 ^ p :=
            Nat.mul_le_mul_right _ (le_of_lt h2)
        _ = a * 2 ^ q := by rw [hqk, pow_add, pow_add]; ring
      · have heq2 : a * 2 ^ q = a * 2 ^ k * (2 ^ p * 2) := by
          rw [hqk, pow_add, pow_add]; ring
        calc a * 2 ^ q = a * 2 ^ k * (2 ^ p * 2) := heq2
        _ < b * (2 ^ p * 2) := mul_lt_mul_of_pos_right h1s (by positivity)
        _ = 2 * (b * 2 ^ p) := by ring

/-- Round-to-nearest moves a quotient by at most one half. -/
theorem rnd2_bounds (n d : ℕ) (hd : 0 < d) :
    (n : ℚ) / d - 1 / 2 ≤ (rnd2 n d : ℚ) ∧
    (rnd2 n d : ℚ) ≤ (n : ℚ) / d + 1 / 2 := by
  have hd0 : (0 : ℚ) < (d : ℚ) := by exact_mod_cast hd
  have hmod := Nat.div_add_mod n d
  have hr : n % d < d := Nat.mod_lt _ hd
  have hcast : ((d * (n / d) + n % d : ℕ) : ℚ) = (n : ℚ) := by rw [hmod]
  have hnd : (n : ℚ) / d = (n / d : ℕ) + (n % d : ℕ) / (d : ℚ) := by
    push_cast at hcast
    field_simp
    linarith
  have hfr0 : (0 : ℚ) ≤ (n % d : ℕ) / (d : ℚ) := by positivity
  have hfr1 : ((n % d : ℕ) : ℚ) / (d : ℚ) < 1 := by
    rw [div_lt_one hd0]
    exact_mod_cast hr
  unfold rnd2
  dsimp only
  split
  · next hcond =>
    have hge : d ≤ 2 * (n % d) := by omega
    have hhalf : (1 : ℚ) / 2 ≤ ((n % d : ℕ) : ℚ) / (d : ℚ) := by
      rw [div_le_div_iff₀ (by norm_num) hd0]
      have hc2 : (d : ℚ) ≤ 2 * ((n % d : ℕ) : ℚ) := by exact_mod_cast hge
      linarith
    push_cast
    constructor <;> linarith [hnd]
  · next hcond =>
    have hle : 2 * (n % d) ≤ d := by omega
    have hhalf : ((n % d : ℕ) : ℚ) / (d : ℚ) ≤ 1 / 2 := by
      rw [div_le_div_iff₀ hd0 (by norm_num)]
      have hc2 : 2 * ((n % d : ℕ) : ℚ) ≤ (d : ℚ) := by exact_mod_cast hle
      linarith
    constructor <;> linarith [hnd]

/-- Mantissa-exponent values are nonnegative. -/
theorem dyVal_nonneg (x : ℕ × ℤ) : 0 ≤ dyVal x := by
  unfold dyVal
  positivity

/-- A half-integer rounding error on the mantissa of a scaled quotient is
a relative error of e once the quotient is at least H / 2e. -/
theorem scale_err (X H R e : ℚ) (hH : 0 < H) (he : 0 < e)
    (hR1 : X / H - 1 / 2 ≤ R) (hR2 : R ≤ X / H + 1 / 2)
    (hX : H / (2 * e) ≤ X) :
    X * (1 - e) ≤ R * H ∧ R * H ≤ X * (1 + e) := by
  have hH0 : H ≠ 0 := ne_of_gt hH
  have he0 : e ≠ 0 := ne_of_gt he
  have h1 : (X / H - 1 / 2) * H ≤ R * H :=
    mul_le_mul_of_nonneg_right hR1 (le_of_lt hH)
  have h2 : R * H ≤ (X / H + 1 / 2) * H :=
    mul_le_mul_of_nonneg_right hR2 (le_of_lt hH)
  have heq1 : (X / H - 1 / 2) * H = X - H / 2 := by
    field_simp
    ring
  have heq2 : (X / H + 1 / 2) * H = X + H / 2 := by
    field_simp
    ring
  have hXe : H / 2 ≤ X * e := by
    have h3 : (H / (2 * e)) * e ≤ X * e :=
      mul_le_mul_of_nonneg_right hX (le_of_lt he)
    have heq3 : (H / (2 * e)) * e = H / 2 := by
      field_simp
      ring
    linarith [heq3 ▸ h3]
  rw [heq1] at h1
  rw [heq2] at h2
  constructor <;> nlinarith

/-- The binary64 division result carries a relative error of at most one
part in 2 to the 53: correct rounding at full mantissa width. -/
theorem fdiv_val_bounds (a b : ℕ) (ha : 0 < a) (hb : 0 < b)
    (haB : a < 2 ^ log2Fuel) (hbB : b < 2 ^ log2Fuel) :
    ((a : ℚ) / b) * (1 - (1 : ℚ) / 2 ^ 53) ≤ dyVal (fdiv a b) ∧
    dyVal (fdiv a b) ≤ ((a : ℚ) / b) * (1 + (1 : ℚ) / 2 ^ 53) := by
  have hb0 : (0 : ℚ) < (b : ℚ) := by exact_mod_cast hb
  unfold fdiv
  rw [if_neg (by omega)]
  dsimp only
  by_cases he : (0 : ℤ) ≤ floorLog2Q a b - 52
  · rw [if_pos he]
    set u := (floorLog2Q a b - 52).toNat with hu
    have hpq : floorLog2Q a b = ((u + 52 : ℕ) : ℤ) - ((0 : ℕ) : ℤ) := by
      push_cast
      omega
    have hwin := floorLog2Q_window a b ha hb haB hbB (u + 52) 0 hpq
    have hlowQ : (2 : ℚ) ^ (u + 52) ≤ (a : ℚ) / b := by
      rw [le_div_iff₀ hb0]
      have h1 : (b * 2 ^ (u + 52) : ℕ) ≤ a := by
        have h2 := hwin.1
        simpa using h2
      calc (2 : ℚ) ^ (u + 52) * b = ((b * 2 ^ (u + 52) : ℕ) : ℚ) := by
            push_cast
            ring
      _ ≤ (a : ℚ) := by exact_mod_cast h1
    have hd0 : 0 < b * 2 ^ u := by positivity
    have hrb := rnd2_bounds a (b * 2 ^ u) hd0
    have hquot : ((a : ℚ)) / ((b * 2 ^ u : ℕ) : ℚ) =
        ((a : ℚ) / b) / ((2 : ℚ) ^ u) := by
      push_cast
      rw [div_div]
    have hXstep : ((2 : ℚ) ^ u) / (2 * (1 / 2 ^ 53)) = (2 : ℚ) ^ (u + 52) := by
      rw [pow_add]
      norm_num
      rw [div_div_eq_mul_div]
      ring
    have hval : dyVal (rnd2 a (b * 2 ^ u), floorLog2Q a b - 52) =
        (rnd2 a (b * 2 ^ u) : ℚ) * (2 : ℚ) ^ u := by
      unfold dyVal
      dsimp only
      rw [show floorLog2Q a b - 52 = ((u : ℕ) : ℤ) by omega, zpow_natCast]
    rw [hval]
    exact scale_err ((a : ℚ) / b) ((2 : ℚ) ^ u) _ _ (by positivity) (by norm_num)
      (by rw [← hquot]; exact hrb.1)
      (by rw [← hquot]; exact hrb.2)
      (by rw [hXstep]; exact hlowQ)
  · rw [if_neg he]
    set u := (-(floorLog2Q a b - 52)).toNat with hu
    have hpq : floorLog2Q a b = ((52 : ℕ) : ℤ) - ((u : ℕ) : ℤ) := by
      push_cast
      omega
    have hwin := floorLog2Q_window a b ha hb haB hbB 52 u hpq
    have hlowQ : (2 : ℚ) ^ 52 / (2 : ℚ) ^ u ≤ (a : ℚ) / b := by
      rw [div_le_div_iff₀ (by positivity) hb0]
      have h1 : (b * 2 ^ 52 : ℕ) ≤ a * 2 ^ u := hwin.1
      calc (2 : ℚ) ^ 52 * b = ((b * 2 ^ 52 : ℕ) : ℚ) := by
            push_cast
            ring
      _ ≤ ((a * 2 ^ u : ℕ) : ℚ) := by exact_mod_cast h1
      _ = (a : ℚ) * 2 ^ u := by push_cast; ring
    have hrb := rnd2_bounds (a * 2 ^ u) b hb
    have hquot : ((a * 2 ^ u : ℕ) : ℚ) / (b : ℚ) =
        ((a : ℚ) / b) / (((2 : ℚ) ^ u)⁻¹) := by
      rw [inv_eq_one_div, div_div_eq_mul_div]
      push_cast
      ring
    have hXstep : (((2 : ℚ) ^ u)⁻¹) / (2 * (1 / 2 ^ 53)) =
        (2 : ℚ) ^ 52 / (2 : ℚ) ^ u := by
      rw [div_eq_div_iff (by positivity) (by positivity),
        inv_mul_cancel₀ (ne_of_gt (show (0 : ℚ) < (2 : ℚ) ^ u by positivity))]
      norm_num
    have hval : dyVal (rnd2 (a * 2 ^ u) b, floorLog2Q a b - 52) =
        (rnd2 (a * 2 ^ u) b : ℚ) * (((2 : ℚ) ^ u)⁻¹) := by
      unfold dyVal
      dsimp only
      rw [show floorLog2Q a b - 52 = -((u : ℕ) : ℤ) by omega, zpow_neg, zpow_natCast]
    rw [hval]
    exact scale_err ((a : ℚ) / b) (((2 : ℚ) ^ u)⁻¹) _ _ (by positivity) (by norm_num)
      (by rw [← hquot]; exact hrb.1)
      (by rw [← hquot]; exact hrb.2)
      (by rw [hXstep]; exact hlowQ)

/-- The rounded product of an exact natural with a binary64 value also
carries a relative error of at most one part in 2 to the 53; the bound
holds unconditionally, since exhausting the logarithm fuel only makes the
result more exact. -/
theorem fmulNat_val_bounds (k : ℕ) (x : ℕ × ℤ) :
    ((k : ℚ) * dyVal x) * (1 - (1 : ℚ) / 2 ^ 53) ≤ dyVal (fmulNat k x) ∧
    dyVal (fmulNat k x) ≤ ((k : ℚ) * dyVal x) * (1 + (1 : ℚ) / 2 ^ 53) := by
  have hkd : (k : ℚ) * dyVal x = ((k * x.1 : ℕ) : ℚ) * (2 : ℚ) ^ x.2 := by
    unfold dyVal
    push_cast
    ring
  have hA0 : 0 ≤ (k : ℚ) * dyVal x :=
    mul_nonneg (Nat.cast_nonneg k) (dyVal_nonneg x)
  unfold fmulNat
  dsimp only
  by_cases ht : nlog2 (k * x.1) ≤ 52
  · rw [if_pos ht]
    have hv : dyVal (k * x.1, x.2) = (k : ℚ) * dyVal x := by
      rw [hkd]
      rfl
    have hAe : 0 ≤ ((k : ℚ) * dyVal x) * (1 / 2 ^ 53) :=
      mul_nonneg hA0 (by norm_num)
    rw [hv]
    constructor <;> linarith
  · rw [if_neg ht]
    set M := k * x.1 with hMdef
    set t := nlog2 M with ht2
    have hM1 : 0 < M := by
      by_contra h0
      have hz : M = 0 := by omega
      have ht0 : t = 0 := by
        rw [ht2, hz]
        exact log2F_zero log2Fuel
      omega
    have hlow : 2 ^ t ≤ M := log2F_lower log2Fuel M hM1
    have hd0 : (0 : ℕ) < 2 ^ (t - 52) := by positivity
    have hrb := rnd2_bounds M (2 ^ (t - 52)) hd0
    have hz2 : (0 : ℚ) < (2 : ℚ) ^ x.2 := zpow_pos (by norm_num) _
    set H : ℚ := (2 : ℚ) ^ x.2 * (2 : ℚ) ^ (t - 52) with hHdef
    have hH0 : 0 < H := by
      rw [hHdef]
      positivity
    have hval : dyVal (rnd2 M (2 ^ (t - 52)), x.2 + ((t - 52 : ℕ) : ℤ)) =
        (rnd2 M (2 ^ (t - 52)) : ℚ) * H := by
      unfold dyVal
      dsimp only
      rw [zpow_add₀ (by norm_num : (2 : ℚ) ≠ 0), zpow_natCast, hHdef]
    have hquot : ((M : ℚ)) / ((2 ^ (t - 52) : ℕ) : ℚ) =
        ((k : ℚ) * dyVal x) / H := by
      rw [hkd, hHdef]
      push_cast
      field_simp
      ring
    have hXlow : H / (2 * (1 / 2 ^ 53)) ≤ (k : ℚ) * dyVal x := by
      have hstep : H / (2 * (1 / 2 ^ 53)) =
          (2 : ℚ) ^ x.2 * (2 ^ (t - 52) * 2 ^ 52) := by
        rw [hHdef]
        norm_num
        rw [div_div_eq_mul_div]
        ring
      rw [hstep, hkd]
      have hMq : (2 : ℚ) ^ (t - 52) * 2 ^ 52 ≤ ((M : ℕ) : ℚ) := by
        have h3 : (2 : ℕ) ^ (t - 52) * 2 ^ 52 ≤ M := by
          calc (2 : ℕ) ^ (t - 52) * 2 ^ 52 = 2 ^ t := by
                rw [← pow_add]
                congr 1
                omega
          _ ≤ M := hlow
        calc (2 : ℚ) ^ (t - 52) * 2 ^ 52 = ((2 ^ (t - 52) * 2 ^ 52 : ℕ) : ℚ) := by
              push_cast
              ring
        _ ≤ ((M : ℕ) : ℚ) := by exact_mod_cast h3
      calc (2 : ℚ) ^ x.2 * (2 ^ (t - 52) * 2 ^ 52) =
            ((2 : ℚ) ^ (t - 52) * 2 ^ 52) * (2 : ℚ) ^ x.2 := by ring
      _ ≤ ((M : ℕ) : ℚ) * (2 : ℚ) ^ x.2 :=
            mul_le_mul_of_nonneg_right hMq (le_of_lt hz2)
    have hres := scale_err ((k : ℚ) * dyVal x) H
      ((rnd2 M (2 ^ (t - 52)) : ℕ) : ℚ) (1 / 2 ^ 53) hH0 (by norm_num)
      (by rw [← hquot]; exact hrb.1)
      (by rw [← hquot]; exact hrb.2)
      hXlow
    rw [hval]
    exact hres

/-- int() on a nonnegative binary64 value is the floor of its rational
value. -/
theorem fToInt_eq_floor (x : ℕ × ℤ) : fToInt x = ⌊dyVal x⌋ := by
  obtain ⟨m, e⟩ := x
  by_cases he : 0 ≤ e
  · obtain ⟨u, rfl⟩ : ∃ u : ℕ, e = (u : ℤ) := ⟨e.toNat, (Int.toNat_of_nonneg he).symm⟩
    unfold fToInt dyVal
    dsimp only
    rw [if_pos he, zpow_natCast, Int.toNat_natCast]
    have h1 : (m : ℚ) * (2 : ℚ) ^ u = ((m * 2 ^ u : ℕ) : ℚ) := by
      push_cast
      ring
    rw [h1, Int.floor_natCast]
    push_cast
    ring
  · obtain ⟨u, rfl⟩ : ∃ u : ℕ, e = -(u : ℤ) := ⟨(-e).toNat, by omega⟩
    unfold fToInt dyVal
    dsimp only
    rw [if_neg he, zpow_neg, zpow_natCast]
    have h2 : (- -(u : ℤ)).toNat = u := by omega
    rw [h2]
    have h1 : (m : ℚ) * ((2 : ℚ) ^ u)⁻¹ = ((m : ℕ) : ℚ) / ((2 ^ u : ℕ) : ℚ) := by
      push_cast
      ring
    rw [h1, ← Int.natCast_floor_eq_floor (by positivity), Nat.floor_div_nat,
      Nat.floor_natCast]

/-- The width the worker computes through binary64 arithmetic,
int(ow * (H / float(oh))), lies within one of the exact floor
of ow * H / oh for all dimensions up to 2 to the 20. -/
theorem floatScale_width_window (ow oh H : ℕ)
    (hbw : ow ≤ 2 ^ 20) (hoh : 0 < oh) (hbh : oh ≤ 2 ^ 20)
    (hH : 0 < H) (hbt : H ≤ 2 ^ 20) :
    ((ow * H / oh : ℕ) : ℤ) - 1 ≤ fToInt (fmulNat ow (fdiv H oh)) ∧
    fToInt (fmulNat ow (fdiv H oh)) ≤ ((ow * H / oh : ℕ) : ℤ) + 1 := by
  have hfuel : (2 : ℕ) ^ 20 < 2 ^ log2Fuel :=
    Nat.pow_lt_pow_right (by norm_num) (by decide)
  have haB : H < 2 ^ log2Fuel := lt_of_le_of_lt hbt hfuel
  have hbB : oh < 2 ^ log2Fuel := lt_of_le_of_lt hbh hfuel
  have hoh0 : (0 : ℚ) < (oh : ℚ) := by exact_mod_cast hoh
  have hdivb := fdiv_val_bounds H oh hH hoh haB hbB
  have hmulb := fmulNat_val_bounds ow (fdiv H oh)
  clear haB hbB hfuel
  set r := dyVal (fdiv H oh) with hr
  set P := dyVal (fmulNat ow (fdiv H oh)) with hP
  set X : ℚ := (ow : ℚ) * ((H : ℚ) / oh) with hX
  have hqnn : (0 : ℚ) ≤ (H : ℚ) / oh := by positivity
  have hrnn : 0 ≤ r := dyVal_nonneg _
  have hXnn : 0 ≤ X := by
    rw [hX]
    positivity
  have hXle : X ≤ 2 ^ 40 := by
    rw [hX]
    have hw : (ow : ℚ) ≤ 2 ^ 20 := by exact_mod_cast hbw
    have hq : (H : ℚ) / oh ≤ 2 ^ 20 := by
      have h1 : (H : ℚ) / oh ≤ (H : ℚ) :=
        div_le_self (by positivity) (by exact_mod_cast hoh)
      have h2 : (H : ℚ) ≤ 2 ^ 20 := by exact_mod_cast hbt
      linarith
    calc (ow : ℚ) * ((H : ℚ) / oh) ≤ 2 ^ 20 * 2 ^ 20 :=
          mul_le_mul hw hq hqnn (by norm_num)
    _ = 2 ^ 40 := by norm_num
  have hup : P ≤ X + 1 := by
    have h1 : P ≤ ((ow : ℚ) * r) * (1 + 1 / 2 ^ 53) := hmulb.2
    have h2 : r ≤ ((H : ℚ) / oh) * (1 + 1 / 2 ^ 53) := hdivb.2
    have h3 : (ow : ℚ) * r ≤ (ow : ℚ) * (((H : ℚ) / oh) * (1 + 1 / 2 ^ 53)) :=
      mul_le_mul_of_nonneg_left h2 (Nat.cast_nonneg ow)
    have h4 : P ≤ ((ow : ℚ) * (((H : ℚ) / oh) * (1 + 1 / 2 ^ 53))) * (1 + 1 / 2 ^ 53) :=
      le_trans h1 (mul_le_mul_of_nonneg_right h3 (by norm_num))
    have h5 : ((ow : ℚ) * (((H : ℚ) / oh) * (1 + 1 / 2 ^ 53))) * (1 + 1 / 2 ^ 53) =
        X * (1 + 2 / 2 ^ 53 + 1 / 2 ^ 106) := by
      rw [hX]
      ring
    have h7 : X * (2 / 2 ^ 53 + 1 / 2 ^ 106) ≤ 2 ^ 40 * (2 / 2 ^ 53 + 1 / 2 ^ 106) :=
      mul_le_mul_of_nonneg_right hXle (by norm_num)
    have h8 : (2 : ℚ) ^ 40 * (2 / 2 ^ 53 + 1 / 2 ^ 106) ≤ 1 := by norm_num
    nlinarith
  have hlo : X - 1 ≤ P := by
    have h1 : ((ow : ℚ) * r) * (1 - 1 / 2 ^ 53) ≤ P := hmulb.1
    have h2 : ((H : ℚ) / oh) * (1 - 1 / 2 ^ 53) ≤ r := hdivb.1
    have h3 : (ow : ℚ) * (((H : ℚ) / oh) * (1 - 1 / 2 ^ 53)) ≤ (ow : ℚ) * r :=
      mul_le_mul_of_nonneg_left h2 (Nat.cast_nonneg ow)
    have h4 : ((ow : ℚ) * (((H : ℚ) / oh) * (1 - 1 / 2 ^ 53))) * (1 - 1 / 2 ^ 53) ≤ P :=
      le_trans (mul_le_mul_of_nonneg_right h3 (by norm_num)) h1
    have h5 : ((ow : ℚ) * (((H : ℚ) / oh) * (1 - 1 / 2 ^ 53))) * (1 - 1 / 2 ^ 53) =
        X * (1 - 2 / 2 ^ 53 + 1 / 2 ^ 106) := by
      rw [hX]
      ring
    have h7 : X * (2 / 2 ^ 53 - 1 / 2 ^ 106) ≤ 2 ^ 40 * (2 / 2 ^ 53 - 1 / 2 ^ 106) :=
      mul_le_mul_of_nonneg_right hXle (by norm_num)
    have h8 : (2 : ℚ) ^ 40 * (2 / 2 ^ 53 - 1 / 2 ^ 106) ≤ 1 := by norm_num
    nlinarith
  have hfl : fToInt (fmulNat ow (fdiv H oh)) = ⌊P⌋ := by
    rw [hP]
    exact fToInt_eq_floor (fmulNat ow (fdiv H oh))
  have hfloorX : ⌊X⌋ = ((ow * H / oh : ℕ) : ℤ) := by
    rw [hX]
    have hcast : (ow : ℚ) * ((H : ℚ) / oh) = ((ow * H : ℕ) : ℚ) / ((oh : ℕ) : ℚ) := by
      push_cast
      ring
    rw [hcast, ← Int.natCast_floor_eq_floor (by positivity), Nat.floor_div_nat,
      Nat.floor_natCast]
  constructor
  · rw [hfl, ← hfloorX]
    have h9 : ⌊X - 1⌋ ≤ ⌊P⌋ := Int.floor_le_floor hlo
    rw [Int.floor_sub_one] at h9
    omega
  · rw [hfl, ← hfloorX]
    have h9 : ⌊P⌋ ≤ ⌊X + 1⌋ := Int.floor_le_floor hup
    rw [Int.floor_add_one] at h9
    omega

/-- Counterexample to C1 as stated: on a 49 by 49 source with target
height 1, the claimed width floor(ow * H / oh) equals 1, but the program
computes int(49 * (1 / float(49))); the binary64 rounding of 1/49 falls
just below the exact quotient, so the planned width is 0. -/
theorem claim1_counterexample :
    cfg49.resizeMode = "fixed_height" ∧ cfg49.targetHeight = 1 ∧
    (49 : ℕ) ≠ cfg49.targetHeight ∧ 0 < cfg49.targetHeight ∧
    plannedDims cfg49 49 49 = some (0, 1) ∧
    (49 * cfg49.targetHeight / 49 : ℕ) = 1 ∧
    (0 : ℤ) ≠ ((49 * cfg49.targetHeight / 49 : ℕ) : ℤ) := by
  decide

/-- C1 amended.  In fixed_height mode with positive dimensions up to
2 to the 20, when the target height is positive and differs from the
original height the planned height is exactly the target and the planned
width is int(ow * (H / float(oh))) computed in binary64 arithmetic, which
lies within one of floor(ow * H / oh) but can differ from it (see the
counterexample); when the original height equals the target or the target
is zero, the dimensions are unchanged. -/
theorem claim1_amended_fixed_height (cfg : Config) (ow oh : ℕ)
    (hmode : cfg.resizeMode = "fixed_height") (howp : 0 < ow)
    (hbw : ow ≤ 2 ^ 20) (hoh : 0 < oh) (hbh : oh ≤ 2 ^ 20)
    (hbt : cfg.targetHeight ≤ 2 ^ 20) :
    (oh ≠ cfg.targetHeight → 0 < cfg.targetHeight →
      plannedDims cfg ow oh =
        some (fToInt (fmulNat ow (fdiv cfg.targetHeight oh)),
          (cfg.targetHeight : ℤ)) ∧
      ((ow * cfg.targetHeight / oh : ℕ) : ℤ) - 1 ≤
        fToInt (fmulNat ow (fdiv cfg.targetHeight oh)) ∧
      fToInt (fmulNat ow (fdiv cfg.targetHeight oh)) ≤
        ((ow * cfg.targetHeight / oh : ℕ) : ℤ) + 1) ∧
    ((oh = cfg.targetHeight ∨ cfg.targetHeight = 0) →
      plannedDims cfg ow oh = some ((ow : ℤ), (oh : ℤ))) := by
  have h1 : cfg.resizeMode ≠ "none" := by rw [hmode]; decide
  constructor
  · intro hne hpos
    have h2 : cfg.resizeMode = "fixed_height" ∧ 0 < cfg.targetHeight ∧
        oh ≠ cfg.targetHeight := ⟨hmode, hpos, hne⟩
    refine ⟨?_, floatScale_width_window ow oh cfg.targetHeight hbw hoh hbh hpos hbt⟩
    unfold plannedDims
    rw [if_pos h1, if_pos h2, if_neg (Nat.pos_iff_ne_zero.mp hoh)]
  · intro h
    have h2 : ¬(cfg.resizeMode = "fixed_height" ∧ 0 < cfg.targetHeight ∧
        oh ≠ cfg.targetHeight) := by
      rintro ⟨-, hpos, hne⟩
      rcases h with he | h0
      · exact hne he
      · omega
    have h3 : ¬(cfg.resizeMode = "fixed_width" ∧ 0 < cfg.targetWidth ∧
        ow ≠ cfg.targetWidth) := by
      rintro ⟨hm, -⟩
      rw [hmode] at hm
      exact absurd hm (by decide)
    have h4 : cfg.resizeMode ≠ "fit_bounds" := by rw [hmode]; decide
    unfold plannedDims
    rw [if_pos h1, if_neg h2, if_neg h3, if_neg h4]

/-- Witness for the amended C1: a 4000 by 2000 page with target height
1000 is planned at exactly 2000 by 1000, inside the stated window. -/
theorem claim1_amended_witness :
    cfgFixedHeight.resizeMode = "fixed_height" ∧ (0 : ℕ) < 4000 ∧
    (4000 : ℕ) ≤ 2 ^ 20 ∧ (0 : ℕ) < 2000 ∧ (2000 : ℕ) ≤ 2 ^ 20 ∧
    cfgFixedHeight.targetHeight ≤ 2 ^ 20 ∧
    (2000 : ℕ) ≠ cfgFixedHeight.targetHeight ∧ 0 < cfgFixedHeight.targetHeight ∧
    (plannedDims cfgFixedHeight 4000 2000 =
        some (fToInt (fmulNat 4000 (fdiv cfgFixedHeight.targetHeight 2000)),
          (cfgFixedHeight.targetHeight : ℤ)) ∧
      ((4000 * cfgFixedHeight.targetHeight / 2000 : ℕ) : ℤ) - 1 ≤
        fToInt (fmulNat 4000 (fdiv cfgFixedHeight.targetHeight 2000)) ∧
      fToInt (fmulNat 4000 (fdiv cfgFixedHeight.targetHeight 2000)) ≤
        ((4000 * cfgFixedHeight.targetHeight / 2000 : ℕ) : ℤ) + 1) ∧
    fToInt (fmulNat 4000 (fdiv cfgFixedHeight.targetHeight 2000)) = 2000 :=
  ⟨rfl, by decide, by decide, by decide, by decide, by decide, by decide,
    by decide,
    (claim1_amended_fixed_height cfgFixedHeight 4000 2000 rfl (by decide)
      (by decide) (by decide) (by decide) (by decide)).1 (by decide) (by decide),
    by decide⟩

/-- C4.  The simulated resize arithmetic of the cache check and the
planned resize arithmetic of the worker agree on every configuration and
every original size, and on equal dimensions the cache split-candidate
test combined with the split-enabled flag is exactly the worker split
decision. -/
theorem claim4_sim_plan_agree :
    (∀ (cfg : Config) (ow oh : ℕ), simResizeDims cfg ow oh = plannedDims cfg ow oh) ∧
    (∀ (cfg : Config) (w h : ℤ),
      (cfg.enableDoublePageSplit && isSplitCandidate w h) = workerSplitCond cfg w h) :=
  ⟨fun _ _ _ => rfl, fun _ _ _ => rfl⟩

/-- Counterexample to C2 as stated: on an odd width the left crop has
width floor of half the width, not width minus that floor; the remainder
column goes to the right crop. -/
theorem claim2_counterexample :
    imgOddWidth.width % 2 = 1 ∧ imgOddWidth.height < imgOddWidth.width ∧
    0 < imgOddWidth.height ∧
    (splitPages imgOddWidth).1.width = imgOddWidth.width / 2 ∧
    (splitPages imgOddWidth).1.width ≠ imgOddWidth.width - imgOddWidth.width / 2 ∧
    (splitPages imgOddWidth).2.width = imgOddWidth.width - imgOddWidth.width / 2 := by
  decide

/-- C2 amended.  For a resized landscape image the split crops at the
integer midpoint: the left crop is width // 2 wide, the right crop is
width - width // 2 wide (so the right part receives the remainder pixel
on odd widths), both crops have the full height, the widths sum to the
width, and the pixels are the left and right halves of the image. -/
theorem claim2_amended_split (img : PILImage) (hh : 0 < img.height)
    (hwh : img.height < img.width) :
    (splitPages img).1.width = img.width / 2 ∧
    (splitPages img).2.width = img.width - img.width / 2 ∧
    (splitPages img).1.height = img.height ∧
    (splitPages img).2.height = img.height ∧
    (splitPages img).1.width + (splitPages img).2.width = img.width ∧
    (img.width % 2 = 1 →
      (splitPages img).2.width = (splitPages img).1.width + 1) ∧
    (∀ x y, (splitPages img).1.pix x y = img.pix x y) ∧
    (∀ x y, (splitPages img).2.pix x y = img.pix (img.width / 2 + x) y) := by
  refine ⟨?_, ?_, ?_, ?_, ?_, ?_, ?_, ?_⟩
  · simp [splitPages, PILImage.crop]
  · simp [splitPages, PILImage.crop]
  · simp [splitPages, PILImage.crop]
  · simp [splitPages, PILImage.crop]
  · simp [splitPages, PILImage.crop]
    omega
  · intro hodd
    simp [splitPages, PILImage.crop]
    omega
  · intro x y
    simp [splitPages, PILImage.crop]
  · intro x y
    simp [splitPages, PILImage.crop]

/-- Witness for the amended C2 on a concrete 5 by 3 image. -/
theorem claim2_amended_witness :
    0 < imgOddWidth.height ∧ imgOddWidth.height < imgOddWidth.width ∧
    ((splitPages imgOddWidth).1.width = imgOddWidth.width / 2 ∧
      (splitPages imgOddWidth).2.width =
        imgOddWidth.width - imgOddWidth.width / 2 ∧
      (splitPages imgOddWidth).1.height = imgOddWidth.height ∧
      (splitPages imgOddWidth).2.height = imgOddWidth.height ∧
      (splitPages imgOddWidth).1.width + (splitPages imgOddWidth).2.width =
        imgOddWidth.width ∧
      (imgOddWidth.width % 2 = 1 →
        (splitPages imgOddWidth).2.width = (splitPages imgOddWidth).1.width + 1) ∧
      (∀ x y, (splitPages imgOddWidth).1.pix x y = imgOddWidth.pix x y) ∧
      (∀ x y, (splitPages imgOddWidth).2.pix x y =
        imgOddWidth.pix (imgOddWidth.width / 2 + x) y)) :=
  ⟨by decide, by decide, claim2_amended_split imgOddWidth (by decide) (by decide)⟩

/-- Freshness test of one expected output: it exists with an mtime at
least the source mtime. -/
theorem outputFresh_iff (fs : FSModel) (m : ℕ) (out : FPath) :
    ((match fs.files out with
      | none => false
      | some outMtime => decide (m ≤ outMtime)) = true) ↔
      ∃ mo, fs.files out = some mo ∧ m ≤ mo := by
  rcases h : fs.files out with _ | mo <;> simp [h]

/-- Evaluation of the cache check once every preliminary test passed:
the result is the freshness conjunction over the expected outputs. -/
theorem checkIfAlreadyProcessed_eval (fs : FSModel) (cfg : Config)
    (imgPath : FPath) (wh : ℕ × ℕ) (sim : ℤ × ℤ) (m : ℕ)
    (hov : cfg.overwriteExisting = false) (hdry : cfg.isDryRun = false)
    (hdir : fs.isDir (calculateTargetOutputDir imgPath) = true)
    (hdec : fs.decode imgPath = some wh)
    (hsim : simResizeDims cfg wh.1 wh.2 = some sim)
    (hm : fs.files imgPath = some m) :
    checkIfAlreadyProcessed fs cfg imgPath =
      (expectedOutputFiles cfg (calculateTargetOutputDir imgPath)
        (splitExt (basenameOf imgPath)).1
        (getDynamicOutputFormatAndExt (strLower (splitExt (basenameOf imgPath)).2) cfg).2
        sim.1 sim.2).all
        (fun outFile => match fs.files outFile with
          | none => false
          | some outMtime => decide (m ≤ outMtime)) := by
  unfold checkIfAlreadyProcessed
  simp [hov, hdry, hdir, hdec, hsim, hm]

/-- C3 amended.  The cache check returns false unconditionally under
overwrite or dry-run; false when the mirrored directory is missing or the
source image cannot be read; and it returns true exactly when all the
preliminary tests pass and every expected output file (two files when
splitting is enabled and the simulated size has positive height and width
exceeding it, else one file) exists with an mtime not older than the
source mtime. -/
theorem claim3_amended_check (fs : FSModel) (cfg : Config) (imgPath : FPath) :
    ((cfg.overwriteExisting = true ∨ cfg.isDryRun = true) →
      checkIfAlreadyProcessed fs cfg imgPath = false) ∧
    (fs.isDir (calculateTargetOutputDir imgPath) = false →
      checkIfAlreadyProcessed fs cfg imgPath = false) ∧
    (fs.decode imgPath = none → checkIfAlreadyProcessed fs cfg imgPath = false) ∧
    (checkIfAlreadyProcessed fs cfg imgPath = true ↔
      cfg.overwriteExisting = false ∧ cfg.isDryRun = false ∧
      fs.isDir (calculateTargetOutputDir imgPath) = true ∧
      ∃ wh, fs.decode imgPath = some wh ∧
      ∃ sim, simResizeDims cfg wh.1 wh.2 = some sim ∧
      ∃ m, fs.files imgPath = some m ∧
      ∀ out ∈ expectedOutputFiles cfg (calculateTargetOutputDir imgPath)
          (splitExt (basenameOf imgPath)).1
          (getDynamicOutputFormatAndExt (strLower (splitExt (basenameOf imgPath)).2) cfg).2
          sim.1 sim.2,
        ∃ mo, fs.files out = some mo ∧ m ≤ mo) := by
  have hiff : checkIfAlreadyProcessed fs cfg imgPath = true ↔
      cfg.overwriteExisting = false ∧ cfg.isDryRun = false ∧
      fs.isDir (calculateTargetOutputDir imgPath) = true ∧
      ∃ wh, fs.decode imgPath = some wh ∧
      ∃ sim, simResizeDims cfg wh.1 wh.2 = some sim ∧
      ∃ m, fs.files imgPath = some m ∧
      ∀ out ∈ expectedOutputFiles cfg (calculateTargetOutputDir imgPath)
          (splitExt (basenameOf imgPath)).1
          (getDynamicOutputFormatAndExt (strLower (splitExt (basenameOf imgPath)).2) cfg).2
          sim.1 sim.2,
        ∃ mo, fs.files out = some mo ∧ m ≤ mo := by
    unfold checkIfAlreadyProcessed
    cases hov : cfg.overwriteExisting with
    | true => simp [hov]
    | false =>
      cases hdry : cfg.isDryRun with
      | true => simp [hdry]
      | false =>
        cases hdir : fs.isDir (calculateTargetOutputDir imgPath) with
        | false => simp [hdir]
        | true =>
          rcases hdec : fs.decode imgPath with _ | wh
          · simp [hdec]
          · rcases hsim : simResizeDims cfg wh.1 wh.2 with _ | sim
            · simp [hdec, hsim]
            · rcases hm : fs.files imgPath with _ | m
              · simp [hdec, hsim, hm]
              · simp [hdec, hsim, hm, List.all_eq_true, outputFresh_iff]
                constructor
                · intro h
                  exact ⟨sim.1, sim.2, rfl, h⟩
                · rintro ⟨a, b, rfl, h⟩
                  exact h
  refine ⟨?_, ?_, ?_, hiff⟩
  · intro h
    cases hc : checkIfAlreadyProcessed fs cfg imgPath with
    | false => rfl
    | true =>
      rcases hiff.mp hc with ⟨hov, hdry, -⟩
      rcases h with h | h
      · rw [h] at hov
        exact Bool.noConfusion hov
      · rw [h] at hdry
        exact Bool.noConfusion hdry
  · intro h
    cases hc : checkIfAlreadyProcessed fs cfg imgPath with
    | false => rfl
    | true =>
      rcases hiff.mp hc with ⟨-, -, hdir, -⟩
      rw [h] at hdir
      exact Bool.noConfusion hdir
  · intro h
    cases hc : checkIfAlreadyProcessed fs cfg imgPath with
    | false => rfl
    | true =>
      rcases hiff.mp hc with ⟨-, -, -, wh, hdec, -⟩
      rw [h] at hdec
      exact Option.noConfusion hdec

/-- Counterexample to C3 as stated: splitting is enabled and the
simulated post-resize width 10 exceeds the simulated height 0, yet the
check returns true on the strength of the single-page output alone, the
two split-page outputs not existing at all; the code additionally
requires the simulated height to be positive before expecting the two
split files, which the claim omits. -/
theorem claim3_counterexample :
    cfgSliver.enableDoublePageSplit = true ∧
    simResizeDims cfgSliver 100 1 = some (10, 0) ∧
    ((0 : ℤ) < 10) ∧
    checkIfAlreadyProcessed fsSliver cfgSliver ["a.png"] = true ∧
    fsSliver.files ["new", "a_p1.png"] = none ∧
    fsSliver.files ["new", "a_p2.png"] = none := by
  have hsim : simResizeDims cfgSliver 100 1 = some (10, 0) := by decide
  refine ⟨by decide, hsim, by decide, ?_, by decide, by decide⟩
  rw [checkIfAlreadyProcessed_eval fsSliver cfgSliver ["a.png"] (100, 1) (10, 0) 5
    rfl rfl (by decide) (by decide) hsim (by decide)]
  decide

/-- Witness for the amended C3: with overwrite set the check returns
false. -/
theorem claim3_amended_witness :
    (cfgOverwriteOn.overwriteExisting = true ∨ cfgOverwriteOn.isDryRun = true) ∧
    checkIfAlreadyProcessed fsSliver cfgOverwriteOn ["a.png"] = false :=
  ⟨Or.inl rfl,
    (claim3_amended_check fsSliver cfgOverwriteOn ["a.png"]).1 (Or.inl rfl)⟩

/-- The walk emits nothing at the output subfolder itself, whatever the
fuel. -/
theorem walkCollect_new_nil (log : String) (sup : List String) (fuel : ℕ)
    (t : DirTree) :
    walkCollect log sup fuel t [newRootOutputSubfolderName] = [] := by
  cases fuel <;> simp [walkCollect]

/-- Pointwise sublists flatten to a sublist. -/
theorem flatten_sublist_of_forall {α β : Type} (l : List α) (f g : α → List β)
    (h : ∀ a ∈ l, (f a).Sublist (g a)) :
    ((l.map f).flatten).Sublist ((l.map g).flatten) := by
  induction l with
  | nil => simp
  | cons x xs ih =>
    simp only [List.map_cons, List.flatten_cons]
    exact (h x (by simp)).append (ih fun a ha => h a (by simp [ha]))

/-- The collected sequence is an order-preserving selection of the raw
os.walk enumeration: the scanner only prunes and filters, never
reorders. -/
theorem walkCollect_sublist_enum (log : String) (sup : List String) :
    ∀ (fuel : ℕ) (t : DirTree) (cur : FPath),
      (walkCollect log sup fuel t cur).Sublist (enumAllFiles fuel t cur) := by
  intro fuel
  induction fuel with
  | zero =>
    intro t cur
    simp [walkCollect, enumAllFiles]
  | succ n ih =>
    intro t cur
    by_cases hc : cur = [newRootOutputSubfolderName]
    · simp only [walkCollect, hc, if_pos]
      exact List.nil_sublist _
    · simp only [walkCollect, enumAllFiles, if_neg hc]
      refine List.Sublist.append ?_ ?_
      · refine List.Sublist.map _ ?_
        refine (List.filter_sublist _).trans ?_
        by_cases hr : cur = ([] : FPath)
        · simp only [hr, if_pos]
          exact List.erase_sublist _ _
        · simp only [if_neg hr]
          exact List.Sublist.refl _
      · exact flatten_sublist_of_forall _ _ _ fun d _ => ih d.2 (cur ++ [d.1])

/-- C6 amended.  The scanner is a pure function of the tree snapshot,
including the enumeration order the operating system reports: its output
is an order-preserving selection of the raw walk enumeration, with no
sorting applied, so two scans agree exactly when the underlying
enumeration does. -/
theorem claim6_amended_scan_order (fuel : ℕ) (t : DirTree) (sup : List String)
    (log : String) :
    (getAllImageFiles fuel t sup log).Sublist (enumAllFiles fuel t []) :=
  walkCollect_sublist_enum log sup fuel t []

/-- Counterexample to C6 as stated: the scanner applies no sorting, so
its output follows the enumeration order of the snapshot; two trees with
the same files enumerated in different orders scan to different
sequences, and the first scan is not sorted. -/
theorem claim6_counterexample :
    treeBA.files.Perm treeAB.files ∧
    getAllImageFiles 1 treeBA supportedFormats ("log.txt") =
      [["b.png"], ["a.png"]] ∧
    getAllImageFiles 1 treeAB supportedFormats ("log.txt") =
      [["a.png"], ["b.png"]] ∧
    getAllImageFiles 1 treeBA supportedFormats ("log.txt") ≠
      getAllImageFiles 1 treeAB supportedFormats ("log.txt") ∧
    ¬ List.Pairwise (fun p q => pathLeB p q = true)
      (getAllImageFiles 1 treeBA supportedFormats ("log.txt")) := by
  decide

/-- Every collected path extends the directory it was collected in by a
nonempty suffix. -/
theorem walkCollect_shape (log : String) (sup : List String) :
    ∀ (fuel : ℕ) (t : DirTree) (cur : FPath) (p : FPath),
      p ∈ walkCollect log sup fuel t cur →
      ∃ rest, rest ≠ ([] : FPath) ∧ p = cur ++ rest := by
  intro fuel
  induction fuel with
  | zero =>
    intro t cur p hp
    simp [walkCollect] at hp
  | succ n ih =>
    intro t cur p hp
    by_cases hc : cur = [newRootOutputSubfolderName]
    · subst hc
      rw [walkCollect_new_nil] at hp
      simp at hp
    · simp only [walkCollect, if_neg hc] at hp
      rcases List.mem_append.mp hp with h | h
      · rcases List.mem_map.mp h with ⟨f, hf, rfl⟩
        exact ⟨[f], by simp, rfl⟩
      · rcases List.mem_flatten.mp h with ⟨l, hl, hpl⟩
        rcases List.mem_map.mp hl with ⟨d, hd, rfl⟩
        rcases ih d.2 (cur ++ [d.1]) p hpl with ⟨rest, hne, rfl⟩
        exact ⟨[d.1] ++ rest, by simp, by simp⟩

/-- C7.  No collected path lies under the output subtree, and the log
file at the input root is never collected; the root listing of a real
directory has no duplicate names. -/
theorem claim7_output_isolation (fuel : ℕ) (t : DirTree) (sup : List String)
    (log : String) (hnd : t.files.Nodup) :
    ∀ p ∈ getAllImageFiles fuel t sup log,
      ¬ liesUnderOutputRoot p ∧ p ≠ [log] := by
  intro p hp
  unfold getAllImageFiles at hp
  cases fuel with
  | zero => simp [walkCollect] at hp
  | succ n =>
    simp only [walkCollect, if_true] at hp
    rcases List.mem_append.mp hp with h | h
    · rcases List.mem_map.mp h with ⟨f, hf, rfl⟩
      have hfe : f ∈ t.files.erase log := (List.mem_filter.mp hf).1
      constructor
      · rintro ⟨rest, hne, heq⟩
        simp only [List.nil_append, List.cons.injEq] at heq
        exact hne heq.2.symm
      · intro heq
        simp only [List.nil_append, List.cons.injEq, and_true] at heq
        exact ((List.Nodup.mem_erase_iff hnd).mp hfe).1 heq
    · rcases List.mem_flatten.mp h with ⟨l, hl, hpl⟩
      rcases List.mem_map.mp hl with ⟨d, hd, rfl⟩
      by_cases hdn : d.1 = newRootOutputSubfolderName
      · rw [show ([] : FPath) ++ [d.1] = [newRootOutputSubfolderName] by
          simp [hdn]] at hpl
        rw [walkCollect_new_nil] at hpl
        simp at hpl
      · rcases walkCollect_shape log sup n d.2 ([] ++ [d.1]) p hpl with
          ⟨rest, hne, rfl⟩
      
        constructor
        · rintro ⟨rest2, hne2, heq⟩
          simp only [List.nil_append, List.cons_append, List.cons.injEq] at heq
          exact hdn heq.1
        · intro heq
          simp only [List.nil_append, List.cons_append, List.cons.injEq] at heq
          exact hne heq.2

/-- Witness for C7 on a concrete tree containing a populated output
subtree and a root log file. -/
theorem claim7_witness :
    treeWithOutput.files.Nodup ∧
    ["a.jpg"] ∈ getAllImageFiles 3 treeWithOutput supportedFormats ("log.txt") ∧
    (¬ liesUnderOutputRoot ["a.jpg"] ∧ (["a.jpg"] : FPath) ≠ ["log.txt"]) :=
  ⟨by decide, by decide,
    claim7_output_isolation 3 treeWithOutput supportedFormats ("log.txt")
      (by decide) ["a.jpg"] (by decide)⟩

/-- Worker results carry either the success or the error status. -/
theorem workerProcessImage_status (fs : FSModel) (cfg : Config) (p : FPath) :
    (workerProcessImage fs cfg p).1.status = "success" ∨
    (workerProcessImage fs cfg p).1.status = "error" := by
  unfold workerProcessImage
  dsimp only
  split
  · exact Or.inr rfl
  · split
    · exact Or.inr rfl
    · split
      · exact Or.inr rfl
      · split
        · split
          · exact Or.inl rfl
          · split
            · exact Or.inr rfl
            · split
              · exact Or.inr rfl
              · exact Or.inl rfl
        · split
          · exact Or.inl rfl
          · split
            · exact Or.inr rfl
            · exact Or.inl rfl

/-- One aggregation step turns exactly one success or error result into
one processed or error count. -/
theorem aggregateStep_counts (acc : ℕ × ℕ × ℕ) (r : WorkerResult)
    (h : r.status = "success" ∨ r.status = "error") :
    (aggregateStep acc r).1 + (aggregateStep acc r).2.2 = acc.1 + acc.2.2 + 1 := by
  rcases h with h | h <;> simp [aggregateStep, h] <;> omega

/-- One aggregation step preserves the split-at-most-processed relation
and never decreases the processed count. -/
theorem aggregateStep_split_mono (acc : ℕ × ℕ × ℕ) (r : WorkerResult) :
    (aggregateStep acc r).2.1 + acc.1 ≤ acc.2.1 + (aggregateStep acc r).1 ∧
    acc.1 ≤ (aggregateStep acc r).1 ∧
    (aggregateStep acc r).2.2 ≤ acc.2.2 + 1 := by
  unfold aggregateStep
  split
  · split <;> simp <;> omega
  · split <;> simp

/-- Folding the aggregation over results whose statuses are success or
error counts every result exactly once and keeps splits at most
processed. -/
theorem aggregate_fold (l : List WorkerResult)
    (h : ∀ r ∈ l, r.status = "success" ∨ r.status = "error") :
    ∀ acc : ℕ × ℕ × ℕ,
      (l.foldl aggregateStep acc).1 + (l.foldl aggregateStep acc).2.2 =
        acc.1 + acc.2.2 + l.length ∧
      (l.foldl aggregateStep acc).2.1 + acc.1 ≤
        acc.2.1 + (l.foldl aggregateStep acc).1 ∧
      acc.1 ≤ (l.foldl aggregateStep acc).1 := by
  induction l with
  | nil => intro acc; simp
  | cons r rs ih =>
    intro acc
    simp only [List.foldl_cons, List.length_cons]
    have h1 := aggregateStep_counts acc r (h r (by simp))
    have h2 := aggregateStep_split_mono acc r
    have h3 := ih (fun x hx => h x (by simp [hx])) (aggregateStep acc r)
    omega

/-- The error count grows by at most the number of results aggregated. -/
theorem aggregate_err_le (l : List WorkerResult) :
    ∀ acc : ℕ × ℕ × ℕ,
      (l.foldl aggregateStep acc).2.2 ≤ acc.2.2 + l.length := by
  induction l with
  | nil => intro acc; simp
  | cons r rs ih =>
    intro acc
    simp only [List.foldl_cons, List.length_cons]
    have h2 := (aggregateStep_split_mono acc r).2.2
    have h3 := ih (aggregateStep acc r)
    omega

/-- One preparation step either keeps the discovered list or filters out
exactly the files under its parent directory. -/
theorem prepareStep_fst (fs : FSModel) (cfg : Config)
    (st : List FPath × List FPath) (d : FPath) :
    (prepareStep fs cfg st d).1 = st.1 ∨
    (prepareStep fs cfg st d).1 =
      st.1.filter (fun p => dirnameOf p ≠ d) := by
  unfold prepareStep
  dsimp only
  split
  · exact Or.inl rfl
  · split
    · split
      · split
        · exact Or.inr rfl
        · exact Or.inl rfl
      · exact Or.inl rfl
    · split
      · exact Or.inr rfl
      · exact Or.inl rfl

/-- One preparation step never drops created directories. -/
theorem prepareStep_snd_mono (fs : FSModel) (cfg : Config)
    (st : List FPath × List FPath) (d : FPath) :
    ∀ q ∈ st.2, q ∈ (prepareStep fs cfg st d).2 := by
  intro q hq
  unfold prepareStep
  dsimp only
  split
  · exact hq
  · split
    · split
      · split
        · exact hq
        · exact hq
      · exact hq
    · split
      · exact hq
      · exact List.mem_cons_of_mem _ hq

/-- The prepared discovered list is a sublist of the one the scan
produced. -/
theorem prepareFold_fst_sublist (fs : FSModel) (cfg : Config) :
    ∀ (l : List FPath) (st : List FPath × List FPath),
      ((l.foldl (prepareStep fs cfg) st).1).Sublist st.1 := by
  intro l
  induction l with
  | nil => intro st; exact List.Sublist.refl _
  | cons d ds ih =>
    intro st
    simp only [List.foldl_cons]
    refine (ih (prepareStep fs cfg st d)).trans ?_
    rcases prepareStep_fst fs cfg st d with h | h
    · rw [h]
    · rw [h]
      exact List.filter_sublist _

/-- Directories created earlier persist through the whole preparation
fold. -/
theorem prepareFold_snd_mono (fs : FSModel) (cfg : Config) :
    ∀ (l : List FPath) (st : List FPath × List FPath) (q : FPath),
      q ∈ st.2 → q ∈ (l.foldl (prepareStep fs cfg) st).2 := by
  intro l
  induction l with
  | nil => intro st q hq; exact hq
  | cons d ds ih =>
    intro st q hq
    simp only [List.foldl_cons]
    exact ih (prepareStep fs cfg st d) q (prepareStep_snd_mono fs cfg st d q hq)

/-- With no clearing or creation failures, the preparation loop leaves
the discovered list untouched. -/
theorem prepareStep_nofail_fst (fs : FSModel) (cfg : Config)
    (st : List FPath × List FPath) (d : FPath)
    (hrc : ∀ q, fs.recreateFails q = false)
    (hmk : ∀ q, fs.mkdirFails q = false) :
    (prepareStep fs cfg st d).1 = st.1 := by
  unfold prepareStep
  dsimp only
  split
  · rfl
  · split
    · split
      · rw [hrc]
        · rfl
      · rfl
    · rw [hmk]
      · rfl

/-- Fold form of the previous lemma. -/
theorem prepareFold_nofail_fst (fs : FSModel) (cfg : Config)
    (hrc : ∀ q, fs.recreateFails q = false)
    (hmk : ∀ q, fs.mkdirFails q = false) :
    ∀ (l : List FPath) (st : List FPath × List FPath),
      (l.foldl (prepareStep fs cfg) st).1 = st.1 := by
  intro l
  induction l with
  | nil => intro st; rfl
  | cons d ds ih =>
    intro st
    simp only [List.foldl_cons]
    rw [ih (prepareStep fs cfg st d), prepareStep_nofail_fst fs cfg st d hrc hmk]

/-- In dry-run mode the preparation loop does nothing at all. -/
theorem prepareStep_dry (fs : FSModel) (cfg : Config)
    (st : List FPath × List FPath) (d : FPath) (hdry : cfg.isDryRun = true) :
    prepareStep fs cfg st d = st := by
  unfold prepareStep
  simp [hdry]

/-- Fold form of the dry-run preparation lemma. -/
theorem prepareFold_dry (fs : FSModel) (cfg : Config)
    (hdry : cfg.isDryRun = true) :
    ∀ (l : List FPath) (st : List FPath × List FPath),
      l.foldl (prepareStep fs cfg) st = st := by
  intro l
  induction l with
  | nil => intro st; rfl
  | cons d ds ih =>
    intro st
    simp only [List.foldl_cons]
    rw [prepareStep_dry fs cfg st d hdry, ih st]

/-- Directory existence is monotone in the created list. -/
theorem dirExistsIn_mono (fs : FSModel) {c1 c2 : List FPath}
    (h : ∀ q ∈ c1, q ∈ c2) (p : FPath) :
    dirExistsIn fs c1 p = true → dirExistsIn fs c2 p = true := by
  unfold dirExistsIn
  intro hx
  rcases Bool.or_eq_true_iff.mp hx with hx | hx
  · exact Bool.or_eq_true_iff.mpr (Or.inl hx)
  · refine Bool.or_eq_true_iff.mpr (Or.inr ?_)
    exact List.elem_iff.mpr (h p (List.elem_iff.mp hx))

/-- After a failure-free preparation pass outside dry-run, the mirrored
directory of every parent in the processed list exists. -/
theorem prepareFold_covers (fs : FSModel) (cfg : Config)
    (hdry : cfg.isDryRun = false)
    (hrc : ∀ q, fs.recreateFails q = false)
    (hmk : ∀ q, fs.mkdirFails q = false) :
    ∀ (l : List FPath) (st : List FPath × List FPath) (d : FPath), d ∈ l →
      dirExistsIn fs ((l.foldl (prepareStep fs cfg) st).2)
        (newRootOutputSubfolderName :: d) = true := by
  intro l
  induction l with
  | nil =>
    intro st d hd
    simp at hd
  | cons d0 ds ih =>
    intro st d hd
    simp only [List.foldl_cons]
    rcases List.mem_cons.mp hd with rfl | hd
    · have hstep : dirExistsIn fs ((prepareStep fs cfg st d).2)
          (newRootOutputSubfolderName :: d) = true := by
        unfold prepareStep
        dsimp only
        rw [hdry]
        simp only [Bool.false_eq_true, if_false]
        by_cases hex : dirExistsIn fs st.2 (newRootOutputSubfolderName :: d) = true
        · rw [if_pos hex]
          split
          · rw [hrc]
            simp only [Bool.false_eq_true, if_false]
            exact hex
          · exact hex
        · rw [if_neg hex, hmk]
          simp only [Bool.false_eq_true, if_false]
          unfold dirExistsIn
          refine Bool.or_eq_true_iff.mpr (Or.inr ?_)
          exact List.elem_iff.mpr (List.mem_cons_self _ _)
      exact dirExistsIn_mono fs
        (fun q hq => prepareFold_snd_mono fs cfg ds (prepareStep fs cfg st d) q hq)
        _ hstep
    · exact ih (prepareStep fs cfg st d0) d hd

/-- Dry-run disables the cache check outright. -/
theorem checkIfAlreadyProcessed_dry (fs : FSModel) (cfg : Config) (p : FPath)
    (hdry : cfg.isDryRun = true) :
    checkIfAlreadyProcessed fs cfg p = false := by
  unfold checkIfAlreadyProcessed
  simp [hdry]

/-- When no file exists anywhere under the output root, the cache check
always misses: every expected output lives under the output root. -/
theorem checkIfAlreadyProcessed_noPrior (fs : FSModel) (cfg : Config) (p : FPath)
    (hnp : ∀ q, fs.files (newRootOutputSubfolderName :: q) = none) :
    checkIfAlreadyProcessed fs cfg p = false := by
  unfold checkIfAlreadyProcessed
  split
  · rfl
  · split
    · rfl
    · dsimp only
      split
      · rfl
      · split
        · rfl
        · split
          · rfl
          · unfold expectedOutputFiles calculateTargetOutputDir
            split
            · have h1 : fs.files (newRootOutputSubfolderName :: (dirnameOf p ++
                  [cfg.templateSplitPage1 (splitExt (basenameOf p)).1
                    (getDynamicOutputFormatAndExt
                      (strLower (splitExt (basenameOf p)).2) cfg).2 1])) = none :=
                hnp _
              simp [h1]
            · have h1 : fs.files (newRootOutputSubfolderName :: (dirnameOf p ++
                  [cfg.templateSingle (splitExt (basenameOf p)).1
                    (getDynamicOutputFormatAndExt
                      (strLower (splitExt (basenameOf p)).2) cfg).2])) = none :=
                hnp _
              simp [h1]

/-- The filtering loop appends every file when nothing is skipped: each
file either has its mirrored directory available (outside dry-run) and a
missing cache entry, so it becomes a task. -/
theorem filterFold_all_tasks (fs : FSModel) (cfg : Config) (created : List FPath) :
    ∀ (l : List FPath) (n : ℕ) (acc : List FPath),
      (∀ p ∈ l,
        (cfg.isDryRun = false →
          dirExistsIn fs created (calculateTargetOutputDir p) = true) ∧
        checkIfAlreadyProcessed (fsWithCreated fs created) cfg p = false) →
      l.foldl (filterStep fs cfg created) (n, acc) = (n, acc ++ l) := by
  intro l
  induction l with
  | nil =>
    intro n acc h
    simp
  | cons p ps ih =>
    intro n acc h
    have hp := h p (by simp)
    simp only [List.foldl_cons]
    have hstep : filterStep fs cfg created (n, acc) p = (n, acc ++ [p]) := by
      unfold filterStep
      cases hdry : cfg.isDryRun with
      | true =>
        simp [hdry, hp.2]
      | false =>
        simp [hdry, hp.1 hdry, hp.2]
    rw [hstep, ih n (acc ++ [p]) (fun x hx => h x (by simp [hx]))]
    simp

/-- Toggling the dry-run flag leaves the planned resize arithmetic
unchanged. -/
theorem plannedDims_irrel_dry (cfg : Config) (b : Bool) (ow oh : ℕ) :
    plannedDims { cfg with isDryRun := b } ow oh = plannedDims cfg ow oh := rfl

/-- Toggling the dry-run flag leaves the worker split decision
unchanged. -/
theorem workerSplitCond_irrel_dry (cfg : Config) (b : Bool) (w h : ℤ) :
    workerSplitCond { cfg with isDryRun := b } w h = workerSplitCond cfg w h := rfl

/-- Toggling the dry-run flag leaves the format policy unchanged. -/
theorem getDynamic_irrel_dry (s : String) (cfg : Config) (b : Bool) :
    getDynamicOutputFormatAndExt s { cfg with isDryRun := b } =
      getDynamicOutputFormatAndExt s cfg := rfl

/-- The dry-run flag of an updated configuration. -/
theorem cfgDry_isDryRun (cfg : Config) (b : Bool) :
    ({ cfg with isDryRun := b } : Config).isDryRun = b := rfl

/-- The log filename is unchanged by the dry-run update. -/
theorem cfgDry_logFilename (cfg : Config) (b : Bool) :
    ({ cfg with isDryRun := b } : Config).logFilename = cfg.logFilename := rfl

/-- The overwrite flag is unchanged by the dry-run update. -/
theorem cfgDry_overwriteExisting (cfg : Config) (b : Bool) :
    ({ cfg with isDryRun := b } : Config).overwriteExisting =
      cfg.overwriteExisting := rfl

/-- The split templates and the single template are unchanged by the
dry-run update. -/
theorem cfgDry_templates (cfg : Config) (b : Bool) :
    ({ cfg with isDryRun := b } : Config).templateSingle = cfg.templateSingle ∧
    ({ cfg with isDryRun := b } : Config).templateSplitPage1 =
      cfg.templateSplitPage1 ∧
    ({ cfg with isDryRun := b } : Config).templateSplitPage2 =
      cfg.templateSplitPage2 := ⟨rfl, rfl, rfl⟩

/-- A worker run with saves that cannot fail produces the same status and
split flag whether or not dry-run is set, and the dry-run worker writes
nothing. -/
theorem workerProcessImage_dry_parity (fs : FSModel) (cfg : Config) (p : FPath)
    (hsv : ∀ q, fs.saveFails q = false) :
    (workerProcessImage fs { cfg with isDryRun := false } p).1.status =
      (workerProcessImage fs { cfg with isDryRun := true } p).1.status ∧
    (workerProcessImage fs { cfg with isDryRun := false } p).1.isSplit =
      (workerProcessImage fs { cfg with isDryRun := true } p).1.isSplit ∧
    (workerProcessImage fs { cfg with isDryRun := true } p).2 = [] := by
  unfold workerProcessImage
  simp only [plannedDims_irrel_dry, workerSplitCond_irrel_dry,
    getDynamic_irrel_dry, cfgDry_isDryRun, (cfgDry_templates cfg false).1,
    (cfgDry_templates cfg false).2.1, (cfgDry_templates cfg false).2.2,
    (cfgDry_templates cfg true).1, (cfgDry_templates cfg true).2.1,
    (cfgDry_templates cfg true).2.2]
  rcases fs.decode p with _ | wh
  · exact ⟨rfl, rfl, rfl⟩
  · dsimp only
    rcases plannedDims cfg wh.1 wh.2 with _ | nd
    · exact ⟨rfl, rfl, rfl⟩
    · dsimp only
      split
      · exact ⟨rfl, rfl, rfl⟩
      · split
        · simp [hsv]
        · simp [hsv]

/-- Aggregation only reads the status and split flag of a result. -/
theorem aggregateStep_congr (acc : ℕ × ℕ × ℕ) (r1 r2 : WorkerResult)
    (hs : r1.status = r2.status) (hb : r1.isSplit = r2.isSplit) :
    aggregateStep acc r1 = aggregateStep acc r2 := by
  unfold aggregateStep
  rw [hs, hb]

/-- A dry-run worker writes no files, whatever else happens. -/
theorem workerProcessImage_dry_writes (fs : FSModel) (cfg : Config) (p : FPath)
    (hdry : cfg.isDryRun = true) :
    (workerProcessImage fs cfg p).2 = [] := by
  unfold workerProcessImage
  dsimp only
  split
  · rfl
  · split
    · rfl
    · split
      · rfl
      · split
        · simp [hdry]
        · simp [hdry]

/-- Aggregating the real and the dry workers over the same task list from
the same accumulator gives the same counts when saves cannot fail. -/
theorem aggFold_parity (fs : FSModel) (cfg : Config)
    (hsv : ∀ q, fs.saveFails q = false) :
    ∀ (l : List FPath) (acc : ℕ × ℕ × ℕ),
      (l.map (workerProcessImage fs { cfg with isDryRun := false })).foldl
        (fun acc r => aggregateStep acc r.1) acc =
      (l.map (workerProcessImage fs { cfg with isDryRun := true })).foldl
        (fun acc r => aggregateStep acc r.1) acc := by
  intro l
  induction l with
  | nil => intro acc; rfl
  | cons p ps ih =>
    intro acc
    simp only [List.map_cons, List.foldl_cons]
    rw [aggregateStep_congr acc _ _ (workerProcessImage_dry_parity fs cfg p hsv).1
      (workerProcessImage_dry_parity fs cfg p hsv).2.1]
    exact ih _

/-- Insertion keeps exactly the members. -/
theorem mem_insertPathLe (x : FPath) :
    ∀ (l : List FPath) (a : FPath), a ∈ insertPathLe x l ↔ a = x ∨ a ∈ l := by
  intro l
  induction l with
  | nil =>
    intro a
    simp [insertPathLe]
  | cons y ys ih =>
    intro a
    unfold insertPathLe
    split
    · simp
    · simp only [List.mem_cons, ih]
      tauto

/-- Sorting keeps exactly the members. -/
theorem mem_sortPaths : ∀ (l : List FPath) (a : FPath),
    a ∈ sortPaths l ↔ a ∈ l := by
  intro l
  induction l with
  | nil => intro a; simp [sortPaths]
  | cons x xs ih =>
    intro a
    unfold sortPaths
    rw [mem_insertPathLe, ih]
    simp

/-- Deduplication keeps exactly the members. -/
theorem mem_dedupPaths : ∀ (l : List FPath) (a : FPath),
    a ∈ dedupPaths l ↔ a ∈ l := by
  intro l
  induction l with
  | nil => intro a; simp [dedupPaths]
  | cons x xs ih =>
    intro a
    unfold dedupPaths
    split
    · rw [ih]
      constructor
      · intro h
        exact List.mem_cons_of_mem _ h
      · intro h
        rcases List.mem_cons.mp h with rfl | h
        · exact List.elem_iff.mp (by assumption)
        · exact h
    · simp only [List.mem_cons, ih]

/-- Every parent directory of a discovered file appears in the sorted
unique parent list. -/
theorem mem_uniqueSortedParents (disc : List FPath) (p : FPath) (hp : p ∈ disc) :
    dirnameOf p ∈ uniqueSortedParents disc := by
  unfold uniqueSortedParents
  rw [mem_sortPaths, mem_dedupPaths]
  exact List.mem_map_of_mem dirnameOf hp

/-- Outside dry-run, with no directory failures and no freshness-cache
hit on any discovered file (whatever directories the preparation pass has
created), the main phase dispatches every discovered file and skips
none. -/
theorem runMainPhase_real (cfg : Config) (fs : FSModel) (disc : List FPath)
    (pf : Bool) (hdry : cfg.isDryRun = false)
    (hmk : ∀ q, fs.mkdirFails q = false)
    (hrc : ∀ q, fs.recreateFails q = false)
    (hnc : ∀ (created : List FPath), ∀ p ∈ disc,
      checkIfAlreadyProcessed (fsWithCreated fs created) cfg p = false) :
    runMainPhase cfg fs disc pf = dispatchAll cfg fs disc pf := by
  unfold runMainPhase runMainPhaseAux dispatchAll
  have hprep1 : ∀ c0 : List FPath,
      ((uniqueSortedParents disc).foldl (prepareStep fs cfg) (disc, c0)).1 =
        disc :=
    fun c0 => prepareFold_nofail_fst fs cfg hrc hmk _ _
  have hflt : ∀ c0 : List FPath,
      disc.foldl
        (filterStep fs cfg
          ((uniqueSortedParents disc).foldl (prepareStep fs cfg) (disc, c0)).2)
        (0, []) = (0, disc) := by
    intro c0
    rw [filterFold_all_tasks]
    · simp
    · intro p hp
      constructor
      · intro _
        exact prepareFold_covers fs cfg hdry hrc hmk _ _ _
          (mem_uniqueSortedParents disc p hp)
      · exact hnc _ p hp
  simp [hprep1, hflt]

/-- In dry-run mode the main phase also dispatches every discovered file
and skips none. -/
theorem runMainPhase_dry (cfg : Config) (fs : FSModel) (disc : List FPath)
    (pf : Bool) (hdry : cfg.isDryRun = true) :
    runMainPhase cfg fs disc pf = dispatchAll cfg fs disc pf := by
  unfold runMainPhase runMainPhaseAux dispatchAll
  have hprep : ∀ c0 : List FPath,
      (uniqueSortedParents disc).foldl (prepareStep fs cfg) (disc, c0) =
        (disc, c0) :=
    fun c0 => prepareFold_dry fs cfg hdry _ _
  have hflt : ∀ c0 : List FPath,
      disc.foldl (filterStep fs cfg c0) (0, []) = (0, disc) := by
    intro c0
    rw [filterFold_all_tasks]
    · simp
    · intro p hp
      refine ⟨fun hcontra => Bool.noConfusion (hdry.symm.trans hcontra), ?_⟩
      exact checkIfAlreadyProcessed_dry _ cfg p hdry
  simp [hprep, hflt]

/-- The dispatch-all outcomes of a real run and a dry run agree on the
processed, split and skipped counts, and the dry run writes nothing. -/
theorem dispatchAll_parity (cfg : Config) (fs : FSModel) (disc : List FPath)
    (pf : Bool) (hsv : ∀ q, fs.saveFails q = false) :
    (dispatchAll { cfg with isDryRun := false } fs disc pf).summary.totalProcessed =
      (dispatchAll { cfg with isDryRun := true } fs disc pf).summary.totalProcessed ∧
    (dispatchAll { cfg with isDryRun := false } fs disc pf).summary.totalSplit =
      (dispatchAll { cfg with isDryRun := true } fs disc pf).summary.totalSplit ∧
    (dispatchAll { cfg with isDryRun := false } fs disc pf).summary.skippedDueToCache =
      (dispatchAll { cfg with isDryRun := true } fs disc pf).summary.skippedDueToCache ∧
    (dispatchAll { cfg with isDryRun := true } fs disc pf).writes = [] := by
  unfold dispatchAll
  by_cases hd : disc = []
  · simp [hd]
  · simp only [if_neg hd]
    have hagg := aggFold_parity fs cfg hsv disc (0, 0, 0)
    have hw : ((disc.map (workerProcessImage fs { cfg with isDryRun := true })).map
        (fun r => r.2)).flatten = [] := by
      rw [List.flatten_eq_nil_iff]
      intro l hl
      rcases List.mem_map.mp hl with ⟨r, hr, rfl⟩
      rcases List.mem_map.mp hr with ⟨p, hp, rfl⟩
      exact workerProcessImage_dry_writes fs _ p rfl
    refine ⟨?_, ?_, ?_, ?_⟩
    · dsimp only
      rw [hagg]
    · dsimp only
      rw [hagg]
    · dsimp only
    · dsimp only
      exact hw

/-- When the scan found files and the output root is available, the run
is the main phase. -/
theorem processImagesWithConfig_main (cfg : Config) (fuel : ℕ) (t : DirTree)
    (fs : FSModel) (pf : Bool)
    (hne : getAllImageFiles fuel t supportedFormats cfg.logFilename ≠ [])
    (hroot : (!cfg.isDryRun && !(fs.isDir [newRootOutputSubfolderName]) &&
      fs.mkdirFails [newRootOutputSubfolderName]) = false) :
    processImagesWithConfig cfg fuel t fs pf =
      runMainPhase cfg fs (getAllImageFiles fuel t supportedFormats cfg.logFilename)
        pf := by
  unfold processImagesWithConfig
  dsimp only
  rw [if_neg hne, hroot]
  simp

/-- C5 amended.  When no directory creation, clearing or save operation
fails and the real run has no freshness-cache hit on any discovered file,
whatever directories its preparation pass has created (for instance
because no up-to-date output pre-exists under the output root), a dry run
and a real run differing only in the dry-run flag produce identical
total_processed, total_split and skipped_due_to_cache counts, and the dry
run writes zero files. -/
theorem claim5_amended_dry_parity (cfg : Config) (fuel : ℕ) (t : DirTree)
    (fs : FSModel) (pf : Bool)
    (hmk : ∀ q, fs.mkdirFails q = false)
    (hrc : ∀ q, fs.recreateFails q = false)
    (hsv : ∀ q, fs.saveFails q = false)
    (hnc : ∀ (created : List FPath),
      ∀ p ∈ getAllImageFiles fuel t supportedFormats cfg.logFilename,
      checkIfAlreadyProcessed (fsWithCreated fs created)
        { cfg with isDryRun := false } p = false) :
    (processImagesWithConfig { cfg with isDryRun := false } fuel t fs pf).summary.totalProcessed =
      (processImagesWithConfig { cfg with isDryRun := true } fuel t fs pf).summary.totalProcessed ∧
    (processImagesWithConfig { cfg with isDryRun := false } fuel t fs pf).summary.totalSplit =
      (processImagesWithConfig { cfg with isDryRun := true } fuel t fs pf).summary.totalSplit ∧
    (processImagesWithConfig { cfg with isDryRun := false } fuel t fs pf).summary.skippedDueToCache =
      (processImagesWithConfig { cfg with isDryRun := true } fuel t fs pf).summary.skippedDueToCache ∧
    (processImagesWithConfig { cfg with isDryRun := true } fuel t fs pf).writes = [] := by
  by_cases hd : getAllImageFiles fuel t supportedFormats cfg.logFilename = []
  · unfold processImagesWithConfig
    dsimp only
    rw [show ({ cfg with isDryRun := false } : Config).logFilename =
      cfg.logFilename from rfl]
    rw [show ({ cfg with isDryRun := true } : Config).logFilename =
      cfg.logFilename from rfl]
    rw [if_pos hd, if_pos hd]
    exact ⟨rfl, rfl, rfl, rfl⟩
  · have hneR : getAllImageFiles fuel t supportedFormats
        ({ cfg with isDryRun := false } : Config).logFilename ≠ [] := hd
    have hneD : getAllImageFiles fuel t supportedFormats
        ({ cfg with isDryRun := true } : Config).logFilename ≠ [] := hd
    have hrootR : ((!({ cfg with isDryRun := false } : Config).isDryRun) &&
        !(fs.isDir [newRootOutputSubfolderName]) &&
        fs.mkdirFails [newRootOutputSubfolderName]) = false := by
      simp [hmk]
    have hrootD : ((!({ cfg with isDryRun := true } : Config).isDryRun) &&
        !(fs.isDir [newRootOutputSubfolderName]) &&
        fs.mkdirFails [newRootOutputSubfolderName]) = false := by
      simp [cfgDry_isDryRun]
    rw [processImagesWithConfig_main _ fuel t fs pf hneR hrootR,
      processImagesWithConfig_main _ fuel t fs pf hneD hrootD,
      runMainPhase_real { cfg with isDryRun := false } fs _ pf rfl hmk hrc hnc,
      runMainPhase_dry { cfg with isDryRun := true } fs _ pf rfl]
    exact dispatchAll_parity cfg fs _ pf hsv

/-- Counterexample to C5 as stated: over a tree whose outputs are already
up to date, the real run skips the file via the freshness cache while the
dry run, whose cache is forcibly disabled, processes it, so the two
summaries differ. -/
theorem claim5_counterexample :
    (processImagesWithConfig cfgPlain 2 treeOne fsPrior false).summary.skippedDueToCache = 1 ∧
    (processImagesWithConfig cfgPlain 2 treeOne fsPrior false).summary.totalProcessed = 0 ∧
    (processImagesWithConfig { cfgPlain with isDryRun := true } 2 treeOne fsPrior false).summary.skippedDueToCache = 0 ∧
    (processImagesWithConfig { cfgPlain with isDryRun := true } 2 treeOne fsPrior false).summary.totalProcessed = 1 ∧
    (processImagesWithConfig { cfgPlain with isDryRun := true } 2 treeOne fsPrior false).writes = [] := by
  decide

/-- Witness for the amended C5 on a concrete one-file tree with no prior
outputs. -/
theorem claim5_amended_witness :
    (∀ q, fsClean.mkdirFails q = false) ∧
    (∀ q, fsClean.recreateFails q = false) ∧
    (∀ q, fsClean.saveFails q = false) ∧
    (∀ (created : List FPath),
      ∀ p ∈ getAllImageFiles 2 treeOne supportedFormats cfgPlain.logFilename,
      checkIfAlreadyProcessed (fsWithCreated fsClean created)
        { cfgPlain with isDryRun := false } p = false) ∧
    ((processImagesWithConfig { cfgPlain with isDryRun := false } 2 treeOne fsClean false).summary.totalProcessed =
      (processImagesWithConfig { cfgPlain with isDryRun := true } 2 treeOne fsClean false).summary.totalProcessed ∧
    (processImagesWithConfig { cfgPlain with isDryRun := false } 2 treeOne fsClean false).summary.totalSplit =
      (processImagesWithConfig { cfgPlain with isDryRun := true } 2 treeOne fsClean false).summary.totalSplit ∧
    (processImagesWithConfig { cfgPlain with isDryRun := false } 2 treeOne fsClean false).summary.skippedDueToCache =
      (processImagesWithConfig { cfgPlain with isDryRun := true } 2 treeOne fsClean false).summary.skippedDueToCache ∧
    (processImagesWithConfig { cfgPlain with isDryRun := true } 2 treeOne fsClean false).writes = []) :=
  ⟨fun _ => rfl, fun _ => rfl, fun _ => rfl,
    fun created p _ => checkIfAlreadyProcessed_noPrior
      (fsWithCreated fsClean created) { cfgPlain with isDryRun := false } p
      (fun q => by simp [fsWithCreated, fsClean, newRootOutputSubfolderName]),
    claim5_amended_dry_parity cfgPlain 2 treeOne fsClean false
      (fun _ => rfl) (fun _ => rfl) (fun _ => rfl)
      (fun created p _ => checkIfAlreadyProcessed_noPrior
        (fsWithCreated fsClean created) { cfgPlain with isDryRun := false } p
        (fun q => by simp [fsWithCreated, fsClean, newRootOutputSubfolderName]))⟩

/-- The main phase ends in nothing_to_do or completed. -/
theorem runMainPhase_status (cfg : Config) (fs : FSModel) (disc : List FPath)
    (pf : Bool) :
    (runMainPhase cfg fs disc pf).summary.status = "nothing_to_do" ∨
    (runMainPhase cfg fs disc pf).summary.status = "completed" := by
  unfold runMainPhase runMainPhaseAux
  dsimp only
  split
  · split
    · exact Or.inl rfl
    · exact Or.inr rfl
  · split
    · exact Or.inl rfl
    · exact Or.inr rfl

/-- On a pool failure every dispatched task is counted as an error. -/
theorem runMainPhase_poolfail (cfg : Config) (fs : FSModel) (disc : List FPath) :
    (runMainPhase cfg fs disc true).summary.totalErrors =
      (runMainPhase cfg fs disc true).summary.totalToProcess := by
  unfold runMainPhase runMainPhaseAux
  dsimp only
  split
  · split
    · rfl
    · rfl
  · split
    · rfl
    · rfl

/-- Aggregating the worker results of a task list counts every task once
as a success or an error and keeps splits at most successes. -/
theorem dispatch_counts (fs : FSModel) (cfg : Config) (tasks : List FPath) :
    ((tasks.map (workerProcessImage fs cfg)).foldl
        (fun acc r => aggregateStep acc r.1) (0, 0, 0)).1 +
      ((tasks.map (workerProcessImage fs cfg)).foldl
        (fun acc r => aggregateStep acc r.1) (0, 0, 0)).2.2 = tasks.length ∧
    ((tasks.map (workerProcessImage fs cfg)).foldl
        (fun acc r => aggregateStep acc r.1) (0, 0, 0)).2.1 ≤
      ((tasks.map (workerProcessImage fs cfg)).foldl
        (fun acc r => aggregateStep acc r.1) (0, 0, 0)).1 := by
  have hrw : (tasks.map (workerProcessImage fs cfg)).foldl
      (fun acc r => aggregateStep acc r.1) ((0, 0, 0) : ℕ × ℕ × ℕ) =
      (tasks.map (fun p => (workerProcessImage fs cfg p).1)).foldl aggregateStep
        (0, 0, 0) := by
    rw [List.foldl_map, List.foldl_map]
  have hagg := aggregate_fold
    (tasks.map (fun p => (workerProcessImage fs cfg p).1))
    (by
      intro r hr
      rcases List.mem_map.mp hr with ⟨p, -, rfl⟩
      exact workerProcessImage_status fs cfg p) ((0, 0, 0))
  rw [hrw]
  rcases hagg with ⟨h1, h2, -⟩
  simp only [List.length_map] at h1
  dsimp only at h1 h2
  omega

/-- C8.  The worker never propagates a failure: its result status is
always success or error, and an unreadable source yields an error result;
the orchestrator always returns a summary whose status is one of the four
documented tags, and on a pool-level failure of a completed run every
dispatched task is counted as an error. -/
theorem claim8_total_handling (fs : FSModel) (cfg : Config) (p : FPath)
    (fuel : ℕ) (t : DirTree) (pf : Bool) :
    ((workerProcessImage fs cfg p).1.status = "success" ∨
      (workerProcessImage fs cfg p).1.status = "error") ∧
    (fs.decode p = none → (workerProcessImage fs cfg p).1.status = "error") ∧
    ((processImagesWithConfig cfg fuel t fs pf).summary.status ∈
      (["completed", "no_images", "nothing_to_do", "failed"] : List String)) ∧
    (pf = true →
      (processImagesWithConfig cfg fuel t fs pf).summary.status = "completed" →
      (processImagesWithConfig cfg fuel t fs pf).summary.totalErrors =
        (processImagesWithConfig cfg fuel t fs pf).summary.totalToProcess) := by
  refine ⟨workerProcessImage_status fs cfg p, ?_, ?_, ?_⟩
  · intro h
    simp [workerProcessImage, h]
  · unfold processImagesWithConfig
    dsimp only
    split
    · simp
    · split
      · simp
      · rcases runMainPhase_status cfg fs
          (getAllImageFiles fuel t supportedFormats cfg.logFilename) pf with
          h | h <;> simp [h]
  · intro hpf
    subst hpf
    unfold processImagesWithConfig
    dsimp only
    split
    · intro hst
      simp at hst
    · split
      · intro hst
        simp at hst
      · intro _
        exact runMainPhase_poolfail cfg fs _

/-- Witness for C8 on the concrete one-file run. -/
theorem claim8_witness :
    fsClean.decode ["missing.png"] = none ∧
    (workerProcessImage fsClean cfgPlain ["missing.png"]).1.status = "error" ∧
    true = true ∧
    (processImagesWithConfig cfgPlain 2 treeOne fsClean true).summary.status =
      "completed" ∧
    (processImagesWithConfig cfgPlain 2 treeOne fsClean true).summary.totalErrors =
      (processImagesWithConfig cfgPlain 2 treeOne fsClean true).summary.totalToProcess :=
  ⟨by decide,
    (claim8_total_handling fsClean cfgPlain ["missing.png"] 2 treeOne true).2.1
      (by decide),
    rfl, by decide,
    (claim8_total_handling fsClean cfgPlain ["missing.png"] 2 treeOne true).2.2.2
      rfl (by decide)⟩

/-- C9.  A completed run without a pool failure satisfies
total_processed plus total_errors equals total_to_process, and
total_split at most total_processed. -/
theorem claim9_completed_counts (cfg : Config) (fuel : ℕ) (t : DirTree)
    (fs : FSModel)
    (hst : (processImagesWithConfig cfg fuel t fs false).summary.status =
      "completed") :
    (processImagesWithConfig cfg fuel t fs false).summary.totalProcessed +
      (processImagesWithConfig cfg fuel t fs false).summary.totalErrors =
      (processImagesWithConfig cfg fuel t fs false).summary.totalToProcess ∧
    (processImagesWithConfig cfg fuel t fs false).summary.totalSplit ≤
      (processImagesWithConfig cfg fuel t fs false).summary.totalProcessed := by
  revert hst
  unfold processImagesWithConfig runMainPhase runMainPhaseAux
  dsimp only
  split
  · intro hst
    simp at hst
  · split
    · intro hst
      simp at hst
    · split
      · split
        · intro hst
          simp at hst
        · intro _
          dsimp only
          exact dispatch_counts fs cfg _
      · split
        · intro hst
          simp at hst
        · intro _
          dsimp only
          exact dispatch_counts fs cfg _

/-- Witness for C9 on the concrete one-file run. -/
theorem claim9_witness :
    (processImagesWithConfig cfgPlain 2 treeOne fsClean false).summary.status =
      "completed" ∧
    ((processImagesWithConfig cfgPlain 2 treeOne fsClean false).summary.totalProcessed +
      (processImagesWithConfig cfgPlain 2 treeOne fsClean false).summary.totalErrors =
      (processImagesWithConfig cfgPlain 2 treeOne fsClean false).summary.totalToProcess ∧
    (processImagesWithConfig cfgPlain 2 treeOne fsClean false).summary.totalSplit ≤
      (processImagesWithConfig cfgPlain 2 treeOne fsClean false).summary.totalProcessed) :=
  ⟨by decide, claim9_completed_counts cfgPlain 2 treeOne fsClean (by decide)⟩

/-- Filtering away a present element strictly shrinks a list. -/
theorem length_filter_lt {α : Type} (l : List α) (pred : α → Bool) (a : α)
    (ha : a ∈ l) (hpa : pred a = false) :
    (l.filter pred).length < l.length := by
  have hsub : (l.filter pred).Sublist l := List.filter_sublist l
  rcases lt_or_eq_of_le hsub.length_le with h | h
  · exact h
  · exfalso
    have heq := hsub.eq_of_length h
    have hmem : a ∈ l.filter pred := by rw [heq]; exact ha
    have := (List.mem_filter.mp hmem).2
    rw [hpa] at this
    exact Bool.noConfusion this

/-- A Boolean contains test is false exactly when the element is not in
the list. -/
theorem contains_false_iff (l : List FPath) (x : FPath) :
    l.contains x = false ↔ x ∉ l := by
  constructor
  · intro h hm
    have h2 : l.contains x = true := List.elem_iff.mpr hm
    rw [h] at h2
    exact Bool.noConfusion h2
  · intro h
    cases hcon : l.contains x with
    | false => rfl
    | true => exact absurd (List.elem_iff.mp hcon) h

/-- A preparation step leaves the created list unchanged or records
exactly the one mirrored directory it created. -/
theorem prepareStep_snd_cases (fs : FSModel) (cfg : Config)
    (st : List FPath × List FPath) (d : FPath) :
    (prepareStep fs cfg st d).2 = st.2 ∨
    (prepareStep fs cfg st d).2 = (newRootOutputSubfolderName :: d) :: st.2 := by
  unfold prepareStep
  dsimp only
  split
  · exact Or.inl rfl
  · split
    · split
      · split
        · exact Or.inl rfl
        · exact Or.inl rfl
      · exact Or.inl rfl
    · split
      · exact Or.inl rfl
      · exact Or.inr rfl

/-- When preparation fails at a parent, because its mirrored directory
exists under overwrite and the clear-recreate fails, or because it does
not exist in the snapshot, was not created earlier in the run, and
os.makedirs fails, the step filters out exactly the files under that
parent and creates nothing. -/
theorem prepareStep_fail_hit (fs : FSModel) (cfg : Config)
    (st : List FPath × List FPath) (d : FPath)
    (hdry : cfg.isDryRun = false)
    (hfail : (cfg.overwriteExisting = true ∧
        fs.isDir (newRootOutputSubfolderName :: d) = true ∧
        fs.recreateFails (newRootOutputSubfolderName :: d) = true) ∨
      (fs.isDir (newRootOutputSubfolderName :: d) = false ∧
        fs.mkdirFails (newRootOutputSubfolderName :: d) = true))
    (hnc : st.2.contains (newRootOutputSubfolderName :: d) = false) :
    (prepareStep fs cfg st d).1 = st.1.filter (fun p => dirnameOf p ≠ d) ∧
    (prepareStep fs cfg st d).2 = st.2 := by
  rcases hfail with ⟨hov, hdir, hrf⟩ | ⟨hnd, hmf⟩
  · have hex : dirExistsIn fs st.2 (newRootOutputSubfolderName :: d) = true := by
      unfold dirExistsIn
      simp [hdir]
    unfold prepareStep
    simp [hdry, hov, hrf, hex]
  · have hex : dirExistsIn fs st.2 (newRootOutputSubfolderName :: d) = false := by
      unfold dirExistsIn
      simp [hnd]
      exact (contains_false_iff st.2 _).mp hnc
    unfold prepareStep
    simp [hdry, hex, hmf]

/-- After the preparation fold has processed a parent at which clearing
or creation fails, no file under that parent survives in the discovered
list; the contains hypothesis records that the mirrored directory was not
created earlier in the run. -/
theorem prepareFold_drop_d (fs : FSModel) (cfg : Config) (d : FPath)
    (hdry : cfg.isDryRun = false)
    (hfail : (cfg.overwriteExisting = true ∧
        fs.isDir (newRootOutputSubfolderName :: d) = true ∧
        fs.recreateFails (newRootOutputSubfolderName :: d) = true) ∨
      (fs.isDir (newRootOutputSubfolderName :: d) = false ∧
        fs.mkdirFails (newRootOutputSubfolderName :: d) = true)) :
    ∀ (l : List FPath) (st : List FPath × List FPath),
      st.2.contains (newRootOutputSubfolderName :: d) = false → d ∈ l →
      ∀ q ∈ (l.foldl (prepareStep fs cfg) st).1, dirnameOf q ≠ d := by
  intro l
  induction l with
  | nil =>
    intro st hc hd
    simp at hd
  | cons d0 ds ih =>
    intro st hc hd q hq
    simp only [List.foldl_cons] at hq
    rcases List.mem_cons.mp hd with rfl | hd
    · have hstep := prepareStep_fail_hit fs cfg st d hdry hfail hc
      have hq2 : q ∈ (prepareStep fs cfg st d).1 :=
        (prepareFold_fst_sublist fs cfg ds (prepareStep fs cfg st d)).subset hq
      rw [hstep.1] at hq2
      have h3 := (List.mem_filter.mp hq2).2
      simpa using h3
    · by_cases hdd : d0 = d
      · subst hdd
        have hstep := prepareStep_fail_hit fs cfg st d0 hdry hfail hc
        exact ih (prepareStep fs cfg st d0) (by rw [hstep.2]; exact hc) hd q hq
      · have hc2 : (prepareStep fs cfg st d0).2.contains
            (newRootOutputSubfolderName :: d) = false := by
          rcases prepareStep_snd_cases fs cfg st d0 with h | h
          · rw [h]
            exact hc
          · rw [h, contains_false_iff]
            intro hm
            rcases List.mem_cons.mp hm with h1 | h1
            · have h3 : d = d0 := (List.cons_eq_cons.mp h1).2
              exact hdd h3.symm
            · exact (contains_false_iff st.2 _).mp hc h1
        exact ih (prepareStep fs cfg st d0) hc2 hd q hq

/-- A parent at which preparation fails and whose files are present
strictly shrinks the discovered list during preparation. -/
theorem prepareFold_shrinks (fs : FSModel) (cfg : Config) (d : FPath)
    (hdry : cfg.isDryRun = false)
    (hfail : (cfg.overwriteExisting = true ∧
        fs.isDir (newRootOutputSubfolderName :: d) = true ∧
        fs.recreateFails (newRootOutputSubfolderName :: d) = true) ∨
      (fs.isDir (newRootOutputSubfolderName :: d) = false ∧
        fs.mkdirFails (newRootOutputSubfolderName :: d) = true)) :
    ∀ (l : List FPath) (st : List FPath × List FPath) (p0 : FPath),
      st.2.contains (newRootOutputSubfolderName :: d) = false →
      d ∈ l → p0 ∈ st.1 → dirnameOf p0 = d →
      ((l.foldl (prepareStep fs cfg) st).1).length < st.1.length := by
  intro l
  induction l with
  | nil =>
    intro st p0 hc hd
    simp at hd
  | cons d0 ds ih =>
    intro st p0 hc hd hp0 hpd
    simp only [List.foldl_cons]
    rcases List.mem_cons.mp hd with rfl | hd
    · have hstep := prepareStep_fail_hit fs cfg st d hdry hfail hc
      have hlt : ((prepareStep fs cfg st d).1).length < st.1.length := by
        rw [hstep.1]
        exact length_filter_lt st.1 _ p0 hp0 (by simp [hpd])
      have hle2 :=
        (prepareFold_fst_sublist fs cfg ds (prepareStep fs cfg st d)).length_le
      omega
    · by_cases hdd : d0 = d
      · subst hdd
        have hstep := prepareStep_fail_hit fs cfg st d0 hdry hfail hc
        have hlt : ((prepareStep fs cfg st d0).1).length < st.1.length := by
          rw [hstep.1]
          exact length_filter_lt st.1 _ p0 hp0 (by simp [hpd])
        have hle2 :=
          (prepareFold_fst_sublist fs cfg ds (prepareStep fs cfg st d0)).length_le
        omega
      · have hc2 : (prepareStep fs cfg st d0).2.contains
            (newRootOutputSubfolderName :: d) = false := by
          rcases prepareStep_snd_cases fs cfg st d0 with h | h
          · rw [h]
            exact hc
          · rw [h, contains_false_iff]
            intro hm
            rcases List.mem_cons.mp hm with h1 | h1
            · have h3 : d = d0 := (List.cons_eq_cons.mp h1).2
              exact hdd h3.symm
            · exact (contains_false_iff st.2 _).mp hc h1
        rcases prepareStep_fst fs cfg st d0 with h | h
        · have h5 := ih (prepareStep fs cfg st d0) p0 hc2 hd
            (by rw [h]; exact hp0) hpd
          rw [h] at h5
          exact h5
        · by_cases hdd0 : dirnameOf p0 = d0
          · have h6 : d = d0 := by rw [← hpd, hdd0]
            exact absurd h6.symm hdd
          · have hp0n : p0 ∈ (prepareStep fs cfg st d0).1 := by
              rw [h]
              exact List.mem_filter.mpr ⟨hp0, by simp [hdd0]⟩
            have h5 := ih (prepareStep fs cfg st d0) p0 hc2 hd hp0n hpd
            have hle2 : ((prepareStep fs cfg st d0).1).length ≤ st.1.length := by
              rw [h]
              exact (List.filter_sublist _).length_le
            omega

/-- A filtering step leaves the task list unchanged or appends the
current file. -/
theorem filterStep_snd (fs : FSModel) (cfg : Config) (created : List FPath)
    (st : ℕ × List FPath) (p : FPath) :
    (filterStep fs cfg created st p).2 = st.2 ∨
    (filterStep fs cfg created st p).2 = st.2 ++ [p] := by
  unfold filterStep
  dsimp only
  split
  · exact Or.inl rfl
  · split
    · exact Or.inl rfl
    · exact Or.inr rfl

/-- Every task chosen by the filtering fold comes from the accumulator or
from the filtered list. -/
theorem filterFold_tasks_subset (fs : FSModel) (cfg : Config)
    (created : List FPath) :
    ∀ (l : List FPath) (s : ℕ × List FPath) (q : FPath),
      q ∈ (l.foldl (filterStep fs cfg created) s).2 → q ∈ s.2 ∨ q ∈ l := by
  intro l
  induction l with
  | nil =>
    intro s q h
    exact Or.inl h
  | cons p ps ih =>
    intro s q h
    simp only [List.foldl_cons] at h
    rcases ih (filterStep fs cfg created s p) q h with h2 | h2
    · rcases filterStep_snd fs cfg created s p with h3 | h3
      · rw [h3] at h2
        exact Or.inl h2
      · rw [h3] at h2
        rcases List.mem_append.mp h2 with h4 | h4
        · exact Or.inl h4
        · simp at h4
          simp [h4]
    · simp [h2]

/-- Core of C10 over the main phase with an arbitrary initial created
list not containing the failing mirrored directory. -/
theorem runMainPhaseAux_drop (cfg : Config) (fs : FSModel) (disc : List FPath)
    (pf : Bool) (c0 : List FPath) (d : FPath)
    (hdry : cfg.isDryRun = false)
    (hfail : (cfg.overwriteExisting = true ∧
        fs.isDir (newRootOutputSubfolderName :: d) = true ∧
        fs.recreateFails (newRootOutputSubfolderName :: d) = true) ∨
      (fs.isDir (newRootOutputSubfolderName :: d) = false ∧
        fs.mkdirFails (newRootOutputSubfolderName :: d) = true))
    (hc0 : c0.contains (newRootOutputSubfolderName :: d) = false)
    (hmem : ∃ p ∈ disc, dirnameOf p = d) :
    (runMainPhaseAux cfg fs disc pf c0).summary.totalDiscovered < disc.length ∧
    (∀ q ∈ (runMainPhaseAux cfg fs disc pf c0).tasks, dirnameOf q ≠ d) ∧
    (runMainPhaseAux cfg fs disc pf c0).summary.totalToProcess =
      (runMainPhaseAux cfg fs disc pf c0).tasks.length ∧
    (runMainPhaseAux cfg fs disc pf c0).summary.totalErrors ≤
      (runMainPhaseAux cfg fs disc pf c0).summary.totalToProcess := by
  rcases hmem with ⟨p0, hp0, hp0d⟩
  have hdm : d ∈ uniqueSortedParents disc := by
    have h := mem_uniqueSortedParents disc p0 hp0
    rw [hp0d] at h
    exact h
  have hlt : ((uniqueSortedParents disc).foldl (prepareStep fs cfg)
      (disc, c0)).1.length < disc.length :=
    prepareFold_shrinks fs cfg d hdry hfail (uniqueSortedParents disc)
      (disc, c0) p0 hc0 hdm hp0 hp0d
  have hnod : ∀ q ∈ ((uniqueSortedParents disc).foldl (prepareStep fs cfg)
      (disc, c0)).1, dirnameOf q ≠ d :=
    prepareFold_drop_d fs cfg d hdry hfail (uniqueSortedParents disc)
      (disc, c0) hc0 hdm
  unfold runMainPhaseAux
  dsimp only
  split
  · exact ⟨hlt, by simp, rfl, le_refl 0⟩
  · refine ⟨hlt, ?_, rfl, ?_⟩
    · intro q hq
      rcases filterFold_tasks_subset fs cfg _ _ _ q hq with h | h
      · simp at h
      · exact hnod q h
    · cases pf
      · simp only [Bool.false_eq_true, if_false]
        have h := (dispatch_counts fs cfg
          ((((uniqueSortedParents disc).foldl (prepareStep fs cfg)
            (disc, c0)).1).foldl
            (filterStep fs cfg
              ((uniqueSortedParents disc).foldl (prepareStep fs cfg)
                (disc, c0)).2) (0, [])).2).1
        omega
      · simp

/-- C10.  When clearing or creating a mirrored output directory fails
during preparation, either on the rmtree-plus-recreate path under
overwrite or on the os.makedirs path for a missing directory, every
discovered file under that source parent is removed from the discovered
list itself: the reported total_discovered drops below the number the
scanner found, no task lies under that parent, the reported
total_to_process is the number of dispatched tasks, and total_errors
never exceeds it. -/
theorem claim10_failed_prepare_drops (cfg : Config) (fuel : ℕ) (t : DirTree)
    (fs : FSModel) (pf : Bool) (d : FPath)
    (hdry : cfg.isDryRun = false)
    (hroot : fs.isDir [newRootOutputSubfolderName] = true)
    (hfail : (cfg.overwriteExisting = true ∧
        fs.isDir (newRootOutputSubfolderName :: d) = true ∧
        fs.recreateFails (newRootOutputSubfolderName :: d) = true) ∨
      (fs.isDir (newRootOutputSubfolderName :: d) = false ∧
        fs.mkdirFails (newRootOutputSubfolderName :: d) = true))
    (hmem : ∃ p ∈ getAllImageFiles fuel t supportedFormats cfg.logFilename,
      dirnameOf p = d) :
    (processImagesWithConfig cfg fuel t fs pf).summary.totalDiscovered <
      (getAllImageFiles fuel t supportedFormats cfg.logFilename).length ∧
    (∀ q ∈ (processImagesWithConfig cfg fuel t fs pf).tasks, dirnameOf q ≠ d) ∧
    (processImagesWithConfig cfg fuel t fs pf).summary.totalToProcess =
      (processImagesWithConfig cfg fuel t fs pf).tasks.length ∧
    (processImagesWithConfig cfg fuel t fs pf).summary.totalErrors ≤
      (processImagesWithConfig cfg fuel t fs pf).summary.totalToProcess := by
  have hne : getAllImageFiles fuel t supportedFormats cfg.logFilename ≠ [] := by
    rcases hmem with ⟨p0, hp0, -⟩
    intro h
    rw [h] at hp0
    simp at hp0
  have hrootok : (!cfg.isDryRun && !(fs.isDir [newRootOutputSubfolderName]) &&
      fs.mkdirFails [newRootOutputSubfolderName]) = false := by
    simp [hroot]
  rw [processImagesWithConfig_main cfg fuel t fs pf hne hrootok]
  unfold runMainPhase
  exact runMainPhaseAux_drop cfg fs _ pf _ d hdry hfail (by simp [hroot]) hmem

/-- Witness for C10 on the concrete one-file tree whose root-level
mirrored directory exists and cannot be cleared and recreated. -/
theorem claim10_witness :
    cfgOverwritePlain.isDryRun = false ∧
    fsFailClear.isDir [newRootOutputSubfolderName] = true ∧
    ((cfgOverwritePlain.overwriteExisting = true ∧
      fsFailClear.isDir (newRootOutputSubfolderName :: ([] : FPath)) = true ∧
      fsFailClear.recreateFails (newRootOutputSubfolderName :: ([] : FPath)) = true) ∨
     (fsFailClear.isDir (newRootOutputSubfolderName :: ([] : FPath)) = false ∧
      fsFailClear.mkdirFails (newRootOutputSubfolderName :: ([] : FPath)) = true)) ∧
    ((processImagesWithConfig cfgOverwritePlain 2 treeOne fsFailClear false).summary.totalDiscovered <
      (getAllImageFiles 2 treeOne supportedFormats cfgOverwritePlain.logFilename).length ∧
    (∀ q ∈ (processImagesWithConfig cfgOverwritePlain 2 treeOne fsFailClear false).tasks,
      dirnameOf q ≠ ([] : FPath)) ∧
    (processImagesWithConfig cfgOverwritePlain 2 treeOne fsFailClear false).summary.totalToProcess =
      (processImagesWithConfig cfgOverwritePlain 2 treeOne fsFailClear false).tasks.length ∧
    (processImagesWithConfig cfgOverwritePlain 2 treeOne fsFailClear false).summary.totalErrors ≤
      (processImagesWithConfig cfgOverwritePlain 2 treeOne fsFailClear false).summary.totalToProcess) :=
  ⟨rfl, by decide, Or.inl ⟨rfl, by decide, by decide⟩,
    claim10_failed_prepare_drops cfgOverwritePlain 2 treeOne fsFailClear false []
      rfl (by decide) (Or.inl ⟨rfl, by decide, by decide⟩)
      ⟨["a.png"], by decide, rfl⟩⟩
